import Mathlib

/-!
# go_concurrency_memcache: a verification development of `main.go`

The loader reads tab-separated lines, parses them into `AppsInstalled`
records, groups them per memcached endpoint and writes every group.

Modelling conventions.

* A Go `string` is a `List Char` (the input is taken to be valid UTF-8; the
  separators `\t` and `,`, the digits and the signs are ASCII, so splitting
  by byte and splitting by character agree).
* `strings.TrimSpace`, `strings.Split` and `strconv.Atoi` (64-bit `int`) are
  modelled concretely.  `strconv.ParseFloat`, `proto.Marshal`, the memcache
  client and the iteration order of Go maps are library behaviour outside
  this repository: they are fields of `Extern`, and every theorem holds for
  every choice of them.
* A Go `map[string]V` is an association list with distinct keys;
  `for k, v := range m` visits `Extern.range m`, a permutation of `m`.
* Goroutines are not modelled: each function is one sequential call.
  `log.Printf` has no effect on the state and is omitted.
-/

namespace MemcLoad

/-- A Go string. -/
abbrev Str := List Char

/-! ## Library functions -/

/-- Go `unicode.IsSpace`. -/
def isSpace (c : Char) : Bool :=
  let n := c.toNat
  n = 0x09 || n = 0x0A || n = 0x0B || n = 0x0C || n = 0x0D || n = 0x20 ||
  n = 0x85 || n = 0xA0 || n = 0x1680 || (0x2000 ≤ n && n ≤ 0x200A) ||
  n = 0x2028 || n = 0x2029 || n = 0x202F || n = 0x205F || n = 0x3000

/-- Strip trailing white space. -/
def trimRight (s : Str) : Str := (s.reverse.dropWhile isSpace).reverse

/-- Go `strings.TrimSpace`: strip leading and trailing white space. -/
def TrimSpace (s : Str) : Str := trimRight (s.dropWhile isSpace)

/-- Go `strings.Split(s, sep)` for a one-character separator. -/
def Split : Str → Char → List Str
  | [], _ => [[]]
  | c :: cs, sep =>
    if c = sep then [] :: Split cs sep
    else match Split cs sep with
      | [] => [[c]]
      | f :: fs => (c :: f) :: fs

/-- An ASCII decimal digit. -/
def isDigit (c : Char) : Bool := 48 ≤ c.toNat && c.toNat ≤ 57

/-- Value of a run of decimal digits, most significant first. -/
def digitsValue (s : Str) : Nat := s.foldl (fun n c => n * 10 + (c.toNat - 48)) 0

/-- Unsigned part of `strconv.Atoi`: a non-empty run of digits. -/
def parseDigits (s : Str) : Option Nat :=
  if s ≠ [] ∧ s.all isDigit then some (digitsValue s) else none

/-- Go `strconv.Atoi` with a 64-bit `int`; `none` is a non-nil error
(syntax error, or a value outside the `int64` range). -/
def Atoi (s : Str) : Option Int :=
  match s with
  | '-' :: ds =>
    match parseDigits ds with
    | some n => if n ≤ 2 ^ 63 then some (-(n : Int)) else none
    | none => none
  | '+' :: ds =>
    match parseDigits ds with
    | some n => if n < 2 ^ 63 then some (n : Int) else none
    | none => none
  | ds =>
    match parseDigits ds with
    | some n => if n < 2 ^ 63 then some (n : Int) else none
    | none => none

/-- Go conversion `uint32(x)` of an `int`. -/
def toUint32 (x : Int) : Nat := (x % 2 ^ 32).toNat

/-! ## Go maps -/

/-- Go `m[k]` with the comma-ok form (also `sync.Map.Load`). -/
def mapLoad {V : Type} : List (Str × V) → Str → Option V
  | [], _ => none
  | (k', v) :: rest, k => if k' = k then some v else mapLoad rest k

/-- Go `m[k] = v` (also `sync.Map.Store`). -/
def mapStore {V : Type} : List (Str × V) → Str → V → List (Str × V)
  | [], k, v => [(k, v)]
  | (k', v') :: rest, k, v =>
    if k' = k then (k, v) :: rest else (k', v') :: mapStore rest k v

/-- Go `delete(m, k)` (also `sync.Map.Delete`). -/
def mapDelete {V : Type} (m : List (Str × V)) (k : Str) : List (Str × V) :=
  m.filter (fun e => decide (e.1 ≠ k))

/-! ## External collaborators and program state -/

/-- A Go `[]byte`. -/
abbrev Bytes := List Nat

/-- Outcome of `memcache.Client.Set`: `nil`, an error for which
`errors.Is(err, memcache.ErrServerError)` holds, or any other error. -/
inductive SetResult
  | ok
  | serverError
  | otherError
  deriving DecidableEq, Repr

/-- Library behaviour the loader consumes.  `F` is `float64`, `N` the state
of the network and of the memcached servers. -/
structure Extern (F N : Type) where
  /-- Go `strconv.ParseFloat(s, 64)`; `none` is a non-nil error. -/
  ParseFloat : Str → Option F
  /-- Go `proto.Marshal` of `UserApps{Lat, Lon, Apps}`; `none` is an error. -/
  Marshal : F → F → List Nat → Option Bytes
  /-- Go `client.Set(&memcache.Item{Key, Value})` on the client of a server. -/
  Set : N → Str → Str → Bytes → N × SetResult
  /-- Order in which `range` visits a map. -/
  range : {V : Type} → List (Str × V) → List (Str × V)
  range_perm : ∀ {V : Type} (m : List (Str × V)), (range m).Perm m

/-- Command-line options. -/
structure Options where
  test : Bool
  logFile : Str
  dry : Bool
  pattern : Str
  idfa : Str
  gaid : Str
  adid : Str
  dvid : Str

/-- The flag defaults of `parseOptions`. -/
def defaultOptions : Options where
  test := false
  logFile := []
  dry := false
  pattern := "./data/appsinstalled/*.tsv.gz".toList
  idfa := "127.0.0.1:33013".toList
  gaid := "127.0.0.1:33014".toList
  adid := "127.0.0.1:33015".toList
  dvid := "127.0.0.1:33016".toList

/-- The routing table `deviceMemc` that `mainFunc` builds. -/
def deviceMemcOf (opts : Options) : List (Str × Str) :=
  [("idfa".toList, opts.idfa), ("gaid".toList, opts.gaid),
   ("adid".toList, opts.adid), ("dvid".toList, opts.dvid)]

/-- One parsed line. -/
structure AppsInstalled (F : Type) where
  DevType : Str
  DevID : Str
  Lat : F
  Lon : F
  Apps : List Nat
  deriving DecidableEq

/-- A `*memcache.Client`, made by `memcache.New(addr)`. -/
structure Client where
  addr : Str
  deriving DecidableEq, Repr

/-- A shard group: endpoint to (key to payload). -/
abbrev Devices := List (Str × List (Str × Bytes))

/-- Everything a call can read or change: the registry `memcConnections`,
the servers, the two `int32` counters, and two traces that record the calls
made (`sets`: every `client.Set` with its outcome; `inserts`: every
`insertAppsInstalled` call of `threadings`). -/
structure World (N : Type) where
  memcConnections : List (Str × Client)
  net : N
  errors : Int
  processed : Int
  sets : List (Str × Str × Bytes × SetResult)
  inserts : List (Str × List (Str × Bytes))
  deriving DecidableEq

/-- Two's-complement wrap into the `int32` range. -/
def wrapInt32 (x : Int) : Int := (x + 2 ^ 31) % 2 ^ 32 - 2 ^ 31

/-- Go `atomic.AddInt32(p, d)`. -/
def addInt32 (x d : Int) : Int := wrapInt32 (x + d)

/-! ## The loader -/

/-- The app loop of `parseAppsInstalled`: tokens that `Atoi` rejects are
skipped, the others are converted to `uint32`. -/
def parseApps : List Str → List Nat
  | [] => []
  | appStr :: rest =>
    match Atoi (TrimSpace appStr) with
    | none => parseApps rest
    | some app => toUint32 app :: parseApps rest

/-- Go `parseAppsInstalled`; `none` is the `nil` result. -/
def parseAppsInstalled {F N : Type} (E : Extern F N) (line : Str) :
    Option (AppsInstalled F) :=
  let lineParts := Split (TrimSpace line) '\t'
  if lineParts.length < 5 then none
  else
    match lineParts with
    | devType :: devID :: latStr :: lonStr :: rawApps :: _ =>
      if devType = [] ∨ devID = [] then none
      else
        let appsStr := Split rawApps ','
        let apps := parseApps appsStr
        match E.ParseFloat latStr with
        | none => none
        | some lat =>
          match E.ParseFloat lonStr with
          | none => none
          | some lon =>
            some { DevType := devType, DevID := devID, Lat := lat, Lon := lon, Apps := apps }
    | _ => none

/-- Go `serialize`: key, payload and whether an error is returned. -/
def serialize {F N : Type} (E : Extern F N) (appsInstalled : AppsInstalled F) :
    Str × Bytes × Bool :=
  let key := appsInstalled.DevType ++ ':' :: appsInstalled.DevID
  match E.Marshal appsInstalled.Lat appsInstalled.Lon appsInstalled.Apps with
  | none => ([], [], true)
  | some packed => (key, packed, false)

/-- The `client.Set` loop of `insertAppsInstalled` over the items in the
order `range` yields them. -/
def setLoop {F N : Type} (E : Extern F N) (memcAddr : Str) (client : Client) :
    List (Str × Bytes) → World N → Bool × World N
  | [], w => (true, w)
  | (k, v) :: rest, w =>
    let r := E.Set w.net client.addr k v
    let w1 := { w with net := r.1, sets := w.sets ++ [(client.addr, k, v, r.2)] }
    match r.2 with
    | SetResult.ok => setLoop E memcAddr client rest w1
    | SetResult.serverError =>
      (false, { w1 with memcConnections := mapDelete w1.memcConnections memcAddr })
    | SetResult.otherError => (false, w1)

/-- Go `insertAppsInstalled`. -/
def insertAppsInstalled {F N : Type} (E : Extern F N) (memcAddr : Str)
    (values : List (Str × Bytes)) (dryRun : Bool) (w : World N) : Bool × World N :=
  let cw : Client × World N :=
    match mapLoad w.memcConnections memcAddr with
    | some conn => (conn, w)
    | none =>
      (⟨memcAddr⟩, { w with memcConnections := mapStore w.memcConnections memcAddr ⟨memcAddr⟩ })
  if dryRun then (true, cw.2)
  else setLoop E memcAddr cw.1 (E.range values) cw.2

/-- Body of the first loop of `threadings`. -/
def lineStep {F N : Type} (E : Extern F N) (deviceMemc : List (Str × Str))
    (acc : Devices × World N) (line : Str) : Devices × World N :=
  let line := TrimSpace line
  if line = [] then acc
  else
    match parseAppsInstalled E line with
    | none => (acc.1, { acc.2 with errors := addInt32 acc.2.errors 1 })
    | some apps =>
      match mapLoad deviceMemc apps.DevType with
      | none => acc
      | some memcAddr =>
        let s := serialize E apps
        let devices :=
          match mapLoad acc.1 memcAddr with
          | some _ => acc.1
          | none => mapStore acc.1 memcAddr []
        let values := (mapLoad devices memcAddr).getD []
        (mapStore devices memcAddr (mapStore values s.1 s.2.1), acc.2)

/-- Body of the second loop of `threadings`. -/
def writeStep {F N : Type} (E : Extern F N) (opts : Options) (w : World N)
    (entry : Str × List (Str × Bytes)) : World N :=
  let r := insertAppsInstalled E entry.1 entry.2 opts.dry
    { w with inserts := w.inserts ++ [entry] }
  if r.1 then { r.2 with processed := addInt32 r.2.processed 1 }
  else { r.2 with errors := addInt32 r.2.errors 1 }

/-- The shard group `devices` at the end of the first loop of `threadings`,
with the world after it. -/
def groupLines {F N : Type} (E : Extern F N) (lines : List Str)
    (deviceMemc : List (Str × Str)) (w : World N) : Devices × World N :=
  lines.foldl (lineStep E deviceMemc) ([], w)

/-- Go `threadings`. -/
def threadings {F N : Type} (E : Extern F N) (lines : List Str)
    (deviceMemc : List (Str × Str)) (opts : Options) (w : World N) : World N :=
  let g := groupLines E lines deviceMemc w
  (E.range g.1).foldl (writeStep E opts) g.2

/-- Batch size. -/
def BATCH : Nat := 40000

/-- The scanner loop of `processFile`: the current `batch` and the batches
handed to `threadings` so far. -/
def scanLoop (cap : Nat) : List Str → List Str → List (List Str) →
    List Str × List (List Str)
  | [], batch, sent => (batch, sent)
  | line :: rest, batch, sent =>
    let batch1 := batch ++ [line]
    if batch1.length = cap then scanLoop cap rest [] (sent ++ [batch1])
    else scanLoop cap rest batch1 sent

/-- What `processFile` dispatches. -/
structure Dispatch where
  batches : List (List Str)
  fatal : Bool
  deriving DecidableEq

/-- Go `processFile` from the scanner on: `lines` are the lines the scanner
yields and `scanErr` tells whether `scanner.Err()` is non-nil afterwards (then
`log.Fatalf` ends the process before the last partial batch is sent). -/
def processFile (lines : List Str) (scanErr : Bool) : Dispatch :=
  let r := scanLoop BATCH lines [] []
  if scanErr then { batches := r.2, fatal := true }
  else if r.1.length > 0 then { batches := r.2 ++ [r.1], fatal := false }
  else { batches := r.2, fatal := false }

/-! ## The error-rate verdict

`float64` arithmetic is modelled exactly: a finite value is the rational it
denotes, and an operation rounds the exact result to the nearest value with a
53-bit significand, ties to even.  The quotient of two non-zero `int32` has a
magnitude between `2^-31` and `2^31`, so the exponent range of `float64` is
never left. -/

/-- A `float64`: not-a-number, an infinity, or a finite value. -/
inductive Float64
  | nan
  | inf (neg : Bool)
  | fin (q : ℚ)
  deriving DecidableEq

/-- Round a rational to the nearest value with a 53-bit significand, ties to
even: `q` is the spacing of such values around `x`, `n` the significand below,
`r` the fraction cut off. -/
def round64 (x : ℚ) : ℚ :=
  if x = 0 then 0
  else
    let q : ℚ := (2 : ℚ) ^ (Int.log 2 |x| - 52)
    let n : Int := ⌊|x| / q⌋
    let r : ℚ := |x| / q - n
    let n1 : Int :=
      if r < 1 / 2 then n
      else if 1 / 2 < r then n + 1
      else if n % 2 = 0 then n else n + 1
    if x < 0 then -(n1 * q) else n1 * q

/-- Go conversion `float64(x)` of an `int32`; exact, since an `int32` has
fewer than 53 significant bits. -/
def ofInt32 (x : Int) : Float64 := Float64.fin x

/-- Go `/` on `float64`.  A zero divisor is `+0`, the only zero a conversion
from an integer gives. -/
def f64div : Float64 → Float64 → Float64
  | Float64.fin a, Float64.fin b =>
    if b = 0 then (if a = 0 then Float64.nan else Float64.inf (decide (a < 0)))
    else Float64.fin (round64 (a / b))
  | Float64.fin _, Float64.inf _ => Float64.fin 0
  | Float64.inf s, Float64.fin b => Float64.inf (s != decide (b < 0))
  | _, _ => Float64.nan

/-- Go `<` on `float64`; false when an operand is not a number. -/
def f64lt : Float64 → Float64 → Bool
  | Float64.fin a, Float64.fin b => decide (a < b)
  | Float64.fin _, Float64.inf s => !s
  | Float64.inf s, Float64.fin _ => s
  | Float64.inf s, Float64.inf t => s && !t
  | _, _ => false

/-- The constant `NORMAL_ERR_RATE = 0.01` as a `float64`. -/
def NORMAL_ERR_RATE : Float64 := Float64.fin (round64 (1 / 100))

/-- The branch `printErrorState` takes: the message it logs. -/
inductive Verdict
  | acceptable
  | highErrorRate
  deriving DecidableEq

/-- Go `printErrorState`. -/
def printErrorState (errors processed : Int) : Verdict :=
  let errRate := f64div (ofInt32 errors) (ofInt32 processed)
  if f64lt errRate NORMAL_ERR_RATE then Verdict.acceptable else Verdict.highErrorRate

/-- The significand of the `float64` nearest to 0.01. -/
def C01 : ℤ := 5764607523034235

/-! ## Vocabulary of the specification -/

/-- The tab-separated fields of a line after white-space trimming. -/
def fieldsOf (line : Str) : List Str := Split (TrimSpace line) '\t'

/-- A numeric app token: once surrounding white space is stripped, a
non-empty run of decimal digits whose value fits 32 bits. -/
def isNumericToken (t : Str) : Bool :=
  decide (TrimSpace t ≠ []) && (TrimSpace t).all isDigit &&
    decide (digitsValue (TrimSpace t) < 2 ^ 32)

/-- The value of a numeric app token. -/
def tokenValue (t : Str) : Nat := digitsValue (TrimSpace t)

/-- A text that denotes a decimal integer: an optional sign and a non-empty
run of digits. -/
def isIntegerText : Str → Bool
  | [] => false
  | c :: ds =>
    if c = '-' ∨ c = '+' then decide (ds ≠ []) && ds.all isDigit
    else (c :: ds).all isDigit

/-- A non-numeric app token: it does not denote an integer at all. -/
def isNonNumericToken (t : Str) : Bool := !isIntegerText (TrimSpace t)

/-- The entry of endpoint `e` and key `k` in a shard group. -/
def lookup2 (d : Devices) (e k : Str) : Option Bytes :=
  (mapLoad d e).bind fun g => mapLoad g k

/-- The assignment `devices[memcAddr][key] = packed`. -/
def put (d : Devices) (t : Str × Str × Bytes) : Devices :=
  mapStore d t.1 (mapStore ((mapLoad d t.1).getD []) t.2.1 t.2.2)

/-- What the first loop of `threadings` stores for a line: endpoint, key and
payload, or nothing when the line is skipped. -/
def routed {F N : Type} (E : Extern F N) (deviceMemc : List (Str × Str)) (line : Str) :
    Option (Str × Str × Bytes) :=
  if TrimSpace line = [] then none
  else
    match parseAppsInstalled E (TrimSpace line) with
    | none => none
    | some apps =>
      match mapLoad deviceMemc apps.DevType with
      | none => none
      | some memcAddr => some (memcAddr, (serialize E apps).1, (serialize E apps).2.1)

/-- A line for which the first loop of `threadings` counts an error. -/
def isRejected {F N : Type} (E : Extern F N) (line : Str) : Bool :=
  decide (TrimSpace line ≠ []) && (parseAppsInstalled E (TrimSpace line)).isNone

/-- The reference entry of a line: a non-empty line that parses to a valid
record whose device-type routes to an endpoint gives that endpoint, the key
`<device-type>:<device-id>` and the encoded payload. -/
def refEntry {F N : Type} (E : Extern F N) (deviceMemc : List (Str × Str)) (line : Str) :
    Option (Str × Str × Bytes) :=
  if TrimSpace line = [] then none
  else
    (parseAppsInstalled E line).bind fun r =>
      (mapLoad deviceMemc r.DevType).bind fun e =>
        (E.Marshal r.Lat r.Lon r.Apps).map fun p => (e, r.DevType ++ ":".toList ++ r.DevID, p)

/-- The payload of the last entry for endpoint `e` and key `k`. -/
def lastPayload (entries : List (Str × Str × Bytes)) (e k : Str) : Option Bytes :=
  ((entries.filter fun t => decide (t.1 = e ∧ t.2.1 = k)).getLast?).map fun t => t.2.2

/-- The counter after `k` calls of `atomic.AddInt32(p, 1)`. -/
def incrN (k : Nat) (x : Int) : Int := (fun y => addInt32 y 1)^[k] x

/-- The endpoint a line routes to: the line is non-empty, parses to a
record, and the routing table has its device-type. -/
def routeOf {F N : Type} (E : Extern F N) (deviceMemc : List (Str × Str)) (line : Str) :
    Option Str :=
  if TrimSpace line = [] then none
  else (parseAppsInstalled E line).bind fun r => mapLoad deviceMemc r.DevType

/-- Number of distinct endpoints the lines of a batch route to. -/
def endpointsTouched {F N : Type} (E : Extern F N) (deviceMemc : List (Str × Str))
    (lines : List Str) : Nat :=
  (lines.filterMap (routeOf E deviceMemc)).dedup.length

/-- Number of non-empty lines of a batch that the parser rejects. -/
def rejectedLines {F N : Type} (E : Extern F N) (lines : List Str) : Nat :=
  lines.countP fun l => decide (TrimSpace l ≠ []) && (parseAppsInstalled E l).isNone

/-- ASCII lower case of a character. -/
def lowerAscii (c : Char) : Char :=
  if 65 ≤ c.toNat ∧ c.toNat ≤ 90 then Char.ofNat (c.toNat + 32) else c

/-- A decimal mantissa: digits with at most one point and at least one digit. -/
def isDecimalMantissa (m : Str) : Bool :=
  match Split m '.' with
  | [a] => decide (a ≠ []) && a.all isDigit
  | [a, b] => decide (a ++ b ≠ []) && a.all isDigit && b.all isDigit
  | _ => false

/-- A decimal exponent: an optional sign and at least one digit. -/
def isDecimalExponent (e : Str) : Bool :=
  match e with
  | '-' :: ds => decide (ds ≠ []) && ds.all isDigit
  | '+' :: ds => decide (ds ≠ []) && ds.all isDigit
  | ds => decide (ds ≠ []) && ds.all isDigit

/-- A numeric text: one that denotes a number, written as an optional sign, a
decimal mantissa and an optional exponent part. -/
def isNumericText (s : Str) : Bool :=
  let body : Str :=
    match s with
    | '-' :: t => t
    | '+' :: t => t
    | t => t
  match Split (body.map lowerAscii) 'e' with
  | [m] => isDecimalMantissa m
  | [m, e] => isDecimalMantissa m && isDecimalExponent e
  | _ => false

/-- The number an integer text stands for in an app list: an optionally
signed run of decimal digits within the `int64` range gives its value modulo
`2^32` (a negative value counted from `2^32` down); any other text gives
nothing. -/
def keptInt : Str → Option Nat
  | '-' :: ds =>
    if ds ≠ [] ∧ ds.all isDigit = true ∧ digitsValue ds ≤ 2 ^ 63 then
      some ((2 ^ 32 - digitsValue ds % 2 ^ 32) % 2 ^ 32)
    else none
  | '+' :: ds =>
    if ds ≠ [] ∧ ds.all isDigit = true ∧ digitsValue ds < 2 ^ 63 then
      some (digitsValue ds % 2 ^ 32)
    else none
  | ds =>
    if ds ≠ [] ∧ ds.all isDigit = true ∧ digitsValue ds < 2 ^ 63 then
      some (digitsValue ds % 2 ^ 32)
    else none

/-- The number `parseAppsInstalled` keeps for an app token: the token is
trimmed and read by `keptInt`; a token that gives nothing is dropped. -/
def keptValue (t : Str) : Option Nat := keptInt (TrimSpace t)

/-- The results of the `insertAppsInstalled` calls for the entries of a shard
group, made one after the other in the given order. -/
def insertOutcomes {F N : Type} (E : Extern F N) (dryRun : Bool) :
    List (Str × List (Str × Bytes)) → World N → List Bool
  | [], _ => []
  | x :: xs, w =>
    (insertAppsInstalled E x.1 x.2 dryRun w).1 ::
      insertOutcomes E dryRun xs (insertAppsInstalled E x.1 x.2 dryRun w).2

/-- The results of the shard writes of one `threadings` call: one
`insertAppsInstalled` result for each endpoint of the shard group, in the
order `range` visits them. -/
def shardOutcomes {F N : Type} (E : Extern F N) (lines : List Str)
    (deviceMemc : List (Str × Str)) (opts : Options) (w : World N) : List Bool :=
  insertOutcomes E opts.dry (E.range (groupLines E lines deviceMemc w).1) w

/-- Two worlds with the same registry, servers and `Set` trace. -/
def sameStore {N : Type} (w w1 : World N) : Prop :=
  w.memcConnections = w1.memcConnections ∧ w.net = w1.net ∧ w.sets = w1.sets

/-- The shard group after a sequence of assignments. -/
def putAll (es : List (Str × Str × Bytes)) (d : Devices) : Devices := es.foldl put d

/-- A shard group is a map of non-empty maps: endpoints are distinct, and
under each endpoint the keys are distinct and at least one is present. -/
def GroupOk (d : Devices) : Prop :=
  (d.map Prod.fst).Nodup ∧ ∀ x ∈ d, (x.2.map Prod.fst).Nodup ∧ x.2 ≠ []

/-- The two sample lines of `protoTest`. -/
def sample : Str :=
  "idfa\t1rfw452y52g2gq4g\t55.55\t42.42\t1423,43,567,3,7,23\ngaid\t7rfw452y52g2gq4g\t55.55\t42.42\t7423,424".toList

/-- The sample split into lines. -/
def sampleLines : List Str := Split sample '\n'

/-- The record of every `Set` call for the items in order, each made on the
servers as the earlier calls left them. -/
def setTrace {F N : Type} (E : Extern F N) (addr : Str) :
    List (Str × Bytes) → N → List (Str × Str × Bytes × SetResult)
  | [], _ => []
  | (k, v) :: rest, n =>
    (addr, k, v, (E.Set n addr k v).2) :: setTrace E addr rest (E.Set n addr k v).1

/-- The client `insertAppsInstalled` uses for an address: the registered
one, or a new one. -/
def clientOf {N : Type} (w : World N) (memcAddr : Str) : Client :=
  (mapLoad w.memcConnections memcAddr).getD ⟨memcAddr⟩

/-! ## A concrete instance of the collaborators -/

/-- Plain decimal literals `digits` or `digits.digits`, a sublanguage of what
`strconv.ParseFloat` accepts; the number is kept as its literal. -/
def decimalLiteral (s : Str) : Option Str :=
  match Split s '.' with
  | [a] => if a ≠ [] ∧ a.all isDigit ∧ a.length ≤ 300 then some s else none
  | [a, b] =>
    if a ≠ [] ∧ a.all isDigit ∧ a.length ≤ 300 ∧ b ≠ [] ∧ b.all isDigit then some s else none
  | _ => none

/-- The special values `strconv.ParseFloat` recognises, as its documentation
gives them: `NaN`, and `Inf` or `Infinity` with an optional sign, matched
without regard to case. -/
def isSpecialFloat (s : Str) : Bool :=
  let t := s.map lowerAscii
  decide (t = "nan".toList) ||
  decide (t = "inf".toList) || decide (t = "+inf".toList) || decide (t = "-inf".toList) ||
  decide (t = "infinity".toList) || decide (t = "+infinity".toList) ||
  decide (t = "-infinity".toList)

/-- The part of `strconv.ParseFloat` used in concrete runs: the special
values and the plain decimal literals, each kept as its text.  Every text
accepted here is accepted by `strconv.ParseFloat`. -/
def sampleParseFloat (s : Str) : Option Str :=
  if isSpecialFloat s then some s else decimalLiteral s

/-- Collaborators for concrete runs: `sampleParseFloat`, a payload that lists
the three fields, servers on which `Set` fails for the keys in `bad` and
`worse` (a server fault for `bad`), and maps visited in insertion order. -/
def sampleExtern (bad worse : List Str) : Extern Str Nat where
  ParseFloat := sampleParseFloat
  Marshal := fun lat lon apps =>
    some (lat.map Char.toNat ++ 0 :: lon.map Char.toNat ++ 0 :: apps)
  Set := fun n _ k _ =>
    (n + 1, if k ∈ bad then SetResult.serverError
      else if k ∈ worse then SetResult.otherError else SetResult.ok)
  range := fun m => m
  range_perm := fun m => List.Perm.refl m

/-- A fresh world: no connection, counters at zero. -/
def world0 : World Nat where
  memcConnections := []
  net := 0
  errors := 0
  processed := 0
  sets := []
  inserts := []

/-! ## Strings -/

theorem trimRight_eq (s : Str) : trimRight s = s.rdropWhile isSpace := rfl

theorem dropWhile_trimRight (s : Str) :
    (trimRight (s.dropWhile isSpace)).dropWhile isSpace = trimRight (s.dropWhile isSpace) := by
  rw [List.dropWhile_eq_self_iff]
  intro hl hp
  have hpre : trimRight (s.dropWhile isSpace) <+: s.dropWhile isSpace := by
    rw [trimRight_eq]; exact List.rdropWhile_prefix _ _
  have hnot := fun h => List.dropWhile_get_zero_not isSpace s h
  generalize trimRight (s.dropWhile isSpace) = a at hl hp hpre
  generalize s.dropWhile isSpace = b at hpre hnot
  obtain ⟨t, rfl⟩ := hpre
  have hl2 : 0 < (a ++ t).length := by
    rw [List.length_append]; omega
  apply hnot hl2
  simpa [List.getElem_append_left, hl] using hp

theorem TrimSpace_idem (s : Str) : TrimSpace (TrimSpace s) = TrimSpace s := by
  unfold TrimSpace
  rw [dropWhile_trimRight]
  simp only [trimRight_eq, List.rdropWhile_idempotent]

theorem TrimSpace_sublist (s : Str) : (TrimSpace s).Sublist s := by
  unfold TrimSpace
  rw [trimRight_eq]
  exact ((List.rdropWhile_prefix _ _).sublist).trans (List.dropWhile_sublist _)

theorem TrimSpace_append_space (s : Str) (c : Char) (hc : isSpace c = true) :
    TrimSpace (s ++ [c]) = TrimSpace s := by
  unfold TrimSpace
  by_cases hall : ∀ x ∈ s, isSpace x = true
  · have h1 : (s ++ [c]).dropWhile isSpace = [] := by
      rw [List.dropWhile_eq_nil_iff]
      intro x hx
      rcases List.mem_append.1 hx with h | h
      · exact hall x h
      · simp at h; subst h; exact hc
    have h2 : s.dropWhile isSpace = [] := by
      rw [List.dropWhile_eq_nil_iff]; exact hall
    rw [h1, h2]
  · have h1 : (s ++ [c]).dropWhile isSpace = s.dropWhile isSpace ++ [c] := by
      clear hc
      induction s with
      | nil => exact absurd (by simp) hall
      | cons a t ih =>
        by_cases ha : isSpace a = true
        · have : ¬ ∀ x ∈ t, isSpace x = true := by
            intro h; apply hall; intro x hx
            rcases List.mem_cons.1 hx with h2 | h2
            · subst h2; exact ha
            · exact h x h2
          simp [List.dropWhile_cons, ha, ih this]
        · simp [List.dropWhile_cons, ha]
    rw [h1, trimRight_eq, trimRight_eq, List.rdropWhile_concat_pos _ _ _ hc]

theorem Split_ne_nil (s : Str) (sep : Char) : Split s sep ≠ [] := by
  induction s with
  | nil => simp [Split]
  | cons c cs ih =>
    unfold Split
    split
    · simp
    · split <;> simp

theorem Split_length (s : Str) (sep : Char) : (Split s sep).length = s.count sep + 1 := by
  induction s with
  | nil => simp [Split]
  | cons c cs ih =>
    unfold Split
    by_cases h : c = sep
    · subst h; simp [ih]
    · have hne : ¬ (c == sep) = true := by simpa using h
      rw [if_neg h, List.count_cons, if_neg hne]
      cases hs : Split cs sep with
      | nil => exact absurd hs (Split_ne_nil cs sep)
      | cons f fs => rw [hs] at ih; simpa using ih

theorem parseAppsInstalled_TrimSpace {F N : Type} (E : Extern F N) (line : Str) :
    parseAppsInstalled E (TrimSpace line) = parseAppsInstalled E line := by
  unfold parseAppsInstalled
  rw [TrimSpace_idem]

/-! ## Parsing -/

theorem parse_short {F N : Type} (E : Extern F N) (line : Str)
    (h : (fieldsOf line).length < 5) : parseAppsInstalled E line = none := by
  unfold parseAppsInstalled
  simp only [fieldsOf] at h
  simp [h]

theorem parse_fields {F N : Type} (E : Extern F N) (line : Str)
    (dt id la lo ra : Str) (rest : List Str)
    (h : fieldsOf line = dt :: id :: la :: lo :: ra :: rest) :
    parseAppsInstalled E line =
      if dt = [] ∨ id = [] then none
      else (E.ParseFloat la).bind fun lat => (E.ParseFloat lo).bind fun lon =>
        some { DevType := dt, DevID := id, Lat := lat, Lon := lon,
               Apps := parseApps (Split ra ',') } := by
  unfold parseAppsInstalled
  simp only [fieldsOf] at h
  simp only [h]
  simp only [List.length_cons]
  rw [if_neg (by omega)]
  by_cases hd : dt = [] ∨ id = []
  · simp [hd]
  · simp only [hd, if_false]
    cases E.ParseFloat la with
    | none => rfl
    | some lat =>
      cases E.ParseFloat lo with
      | none => rfl
      | some lon => rfl

theorem fields_shape (line : Str) (h : ¬ (fieldsOf line).length < 5) :
    ∃ dt id la lo ra rest, fieldsOf line = dt :: id :: la :: lo :: ra :: rest := by
  match hs : fieldsOf line with
  | [] | [_] | [_, _] | [_, _, _] | [_, _, _, _] => rw [hs] at h; simp at h
  | dt :: id :: la :: lo :: ra :: rest => exact ⟨dt, id, la, lo, ra, rest, rfl⟩

theorem parse_some_fields {F N : Type} (E : Extern F N) (line : Str)
    (r : AppsInstalled F) (h : parseAppsInstalled E line = some r) :
    ∃ dt id la lo ra rest, fieldsOf line = dt :: id :: la :: lo :: ra :: rest ∧
      dt ≠ [] ∧ id ≠ [] ∧ E.ParseFloat la = some r.Lat ∧ E.ParseFloat lo = some r.Lon ∧
      r.DevType = dt ∧ r.DevID = id ∧ r.Apps = parseApps (Split ra ',') := by
  by_cases hlen : (fieldsOf line).length < 5
  · rw [parse_short E line hlen] at h; cases h
  · obtain ⟨dt, id, la, lo, ra, rest, hf⟩ := fields_shape line hlen
    refine ⟨dt, id, la, lo, ra, rest, hf, ?_⟩
    rw [parse_fields E line dt id la lo ra rest hf] at h
    by_cases hd : dt = [] ∨ id = []
    · simp [hd] at h
    · rw [if_neg hd] at h
      cases hla : E.ParseFloat la with
      | none => simp [hla] at h
      | some lat =>
        cases hlo : E.ParseFloat lo with
        | none => simp [hla, hlo] at h
        | some lon =>
          simp only [hla, hlo, Option.some_bind, Option.some.injEq] at h
          subst h
          push_neg at hd
          exact ⟨hd.1, hd.2, rfl, rfl, rfl, rfl, rfl⟩

theorem isDigit_not_sign (c : Char) (h : isDigit c = true) : c ≠ '-' ∧ c ≠ '+' := by
  constructor <;> · rintro rfl; revert h; decide

theorem Atoi_digits (s : Str) (hne : s ≠ []) (hd : s.all isDigit = true)
    (hv : digitsValue s < 2 ^ 63) : Atoi s = some (digitsValue s : Int) := by
  have hp : parseDigits s = some (digitsValue s) := by
    unfold parseDigits; rw [if_pos ⟨hne, hd⟩]
  cases s with
  | nil => exact absurd rfl hne
  | cons c cs =>
    have hc : isDigit c = true := by
      simp only [List.all_cons, Bool.and_eq_true] at hd; exact hd.1
    obtain ⟨h1, h2⟩ := isDigit_not_sign c hc
    unfold Atoi
    split
    · rename_i heq; cases heq; exact absurd rfl h1
    · rename_i heq; cases heq; exact absurd rfl h2
    · rw [hp]; simp only [hv, if_true]

theorem Atoi_not_integer (s : Str) (h : isIntegerText s = false) : Atoi s = none := by
  unfold Atoi
  split
  · rename_i ds
    simp only [isIntegerText, true_or, if_true] at h
    have : parseDigits ds = none := by
      unfold parseDigits
      rw [if_neg]
      intro hc
      simp [hc.1, hc.2] at h
    rw [this]
  · rename_i ds
    simp only [isIntegerText, or_true, if_true] at h
    have : parseDigits ds = none := by
      unfold parseDigits
      rw [if_neg]
      intro hc
      simp [hc.1, hc.2] at h
    rw [this]
  · have : parseDigits s = none := by
      unfold parseDigits
      rw [if_neg]
      rintro ⟨hne, hd⟩
      cases s with
      | nil => exact hne rfl
      | cons c cs =>
        have hc : isDigit c = true := by
          simp only [List.all_cons, Bool.and_eq_true] at hd; exact hd.1
        obtain ⟨hm, hp⟩ := isDigit_not_sign c hc
        simp only [isIntegerText, hm, hp, or_self, if_false] at h
        rw [h] at hd; cases hd
    rw [this]

theorem parseApps_tokens (toks : List Str)
    (h : ∀ t ∈ toks, isNumericToken t = true ∨ isNonNumericToken t = true) :
    parseApps toks = (toks.filter isNumericToken).map tokenValue := by
  induction toks with
  | nil => rfl
  | cons t ts ih =>
    have ih2 := ih (fun x hx => h x (List.mem_cons_of_mem _ hx))
    by_cases hn : isNumericToken t = true
    · have hn2 := hn
      simp only [isNumericToken, Bool.and_eq_true, decide_eq_true_eq] at hn2
      obtain ⟨⟨hne, hd⟩, hv⟩ := hn2
      have hA := Atoi_digits (TrimSpace t) hne hd (lt_trans hv (by norm_num))
      have hu : toUint32 (digitsValue (TrimSpace t) : Int) = digitsValue (TrimSpace t) := by
        unfold toUint32
        have h0 : (0 : Int) ≤ (digitsValue (TrimSpace t) : Int) := Int.natCast_nonneg _
        have h1 : (digitsValue (TrimSpace t) : Int) < 2 ^ 32 := by exact_mod_cast hv
        rw [Int.emod_eq_of_lt h0 h1]; simp
      simp only [parseApps, hA, List.filter_cons, hn, if_true, List.map_cons, tokenValue, hu, ih2]
    · have hnn : isNonNumericToken t = true := by
        rcases h t (List.mem_cons_self _ _) with h1 | h1
        · exact absurd h1 hn
        · exact h1
      simp only [isNonNumericToken, Bool.not_eq_true', ] at hnn
      have hA := Atoi_not_integer _ hnn
      simp only [parseApps, hA, List.filter_cons, hn, ih2]
      simp

/-! ## Maps -/

theorem mapLoad_mapStore {V : Type} (m : List (Str × V)) (k k' : Str) (v : V) :
    mapLoad (mapStore m k v) k' = if k = k' then some v else mapLoad m k' := by
  induction m with
  | nil => simp [mapStore, mapLoad]
  | cons x rest ih =>
    obtain ⟨a, b⟩ := x
    by_cases h : a = k
    · subst h
      by_cases h2 : a = k' <;> simp [mapStore, mapLoad, h2]
    · by_cases h2 : a = k'
      · subst h2
        simp [mapStore, mapLoad, h, Ne.symm h]
      · simp only [mapStore, if_neg h, mapLoad, if_neg h2, ih]

theorem mapLoad_eq_none_iff {V : Type} (m : List (Str × V)) (k : Str) :
    mapLoad m k = none ↔ k ∉ m.map Prod.fst := by
  induction m with
  | nil => simp [mapLoad]
  | cons x rest ih =>
    obtain ⟨a, b⟩ := x
    by_cases h : a = k
    · rw [show mapLoad ((a, b) :: rest) k = some b from by simp only [mapLoad, if_pos h]]
      constructor
      · intro h2; cases h2
      · intro hn
        exact absurd (by rw [List.map_cons]; exact h ▸ List.mem_cons_self _ _) hn
    · rw [show mapLoad ((a, b) :: rest) k = mapLoad rest k from by simp only [mapLoad, if_neg h],
        ih, List.map_cons, List.mem_cons, not_or]
      exact ⟨fun x => ⟨Ne.symm h, x⟩, fun x => x.2⟩

theorem mapLoad_some_mem {V : Type} (m : List (Str × V)) (k : Str) (v : V)
    (h : mapLoad m k = some v) : (k, v) ∈ m := by
  induction m with
  | nil => simp [mapLoad] at h
  | cons x rest ih =>
    obtain ⟨a, b⟩ := x
    by_cases h2 : a = k
    · simp [mapLoad, h2] at h; subst h; subst h2; exact List.mem_cons_self _ _
    · simp only [mapLoad, if_neg h2] at h
      exact List.mem_cons_of_mem _ (ih h)

theorem keys_mapStore {V : Type} (m : List (Str × V)) (k : Str) (v : V) :
    (mapStore m k v).map Prod.fst =
      if k ∈ m.map Prod.fst then m.map Prod.fst else m.map Prod.fst ++ [k] := by
  induction m with
  | nil => simp [mapStore]
  | cons x rest ih =>
    obtain ⟨a, b⟩ := x
    by_cases h : a = k
    · subst h
      simp only [mapStore, if_true, List.map_cons, List.mem_cons, true_or]
    · by_cases hk : k ∈ rest.map Prod.fst
      · simp only [mapStore, if_neg h, List.map_cons, ih, List.mem_cons, Ne.symm h, false_or,
          if_pos hk]
      · simp only [mapStore, if_neg h, List.map_cons, ih, List.mem_cons, Ne.symm h, false_or,
          if_neg hk, List.cons_append]

theorem nodup_mapStore {V : Type} (m : List (Str × V)) (k : Str) (v : V)
    (hn : (m.map Prod.fst).Nodup) : ((mapStore m k v).map Prod.fst).Nodup := by
  rw [keys_mapStore]
  split
  · exact hn
  · rename_i h
    rw [List.nodup_append]
    refine ⟨hn, List.nodup_singleton _, ?_⟩
    intro a ha hb
    simp only [List.mem_singleton] at hb
    subst hb; exact h ha

theorem mem_mapStore {V : Type} (m : List (Str × V)) (k : Str) (v : V) (x : Str × V)
    (h : x ∈ mapStore m k v) : x = (k, v) ∨ x ∈ m := by
  induction m with
  | nil => simp [mapStore] at h; exact Or.inl h
  | cons y rest ih =>
    obtain ⟨a, b⟩ := y
    by_cases h2 : a = k
    · simp only [mapStore, if_pos h2, List.mem_cons] at h
      rcases h with h | h
      · exact Or.inl h
      · exact Or.inr (List.mem_cons_of_mem _ h)
    · simp only [mapStore, if_neg h2, List.mem_cons] at h
      rcases h with h | h
      · exact Or.inr (h ▸ List.mem_cons_self _ _)
      · rcases ih h with h3 | h3
        · exact Or.inl h3
        · exact Or.inr (List.mem_cons_of_mem _ h3)

theorem mapStore_ne_nil {V : Type} (m : List (Str × V)) (k : Str) (v : V) :
    mapStore m k v ≠ [] := by
  cases m with
  | nil => simp [mapStore]
  | cons y rest =>
    obtain ⟨a, b⟩ := y
    simp only [mapStore]
    split <;> simp

theorem mapStore_mapStore {V : Type} (m : List (Str × V)) (k : Str) (u v : V) :
    mapStore (mapStore m k u) k v = mapStore m k v := by
  induction m with
  | nil => simp [mapStore]
  | cons y rest ih =>
    obtain ⟨a, b⟩ := y
    by_cases h : a = k
    · simp [mapStore, h]
    · simp [mapStore, h, ih]

theorem mapLoad_mapDelete {V : Type} (m : List (Str × V)) (k k' : Str) :
    mapLoad (mapDelete m k) k' = if k = k' then none else mapLoad m k' := by
  induction m with
  | nil => simp [mapDelete, mapLoad]
  | cons y rest ih =>
    obtain ⟨a, b⟩ := y
    unfold mapDelete at ih ⊢
    by_cases h : a = k
    · subst h
      by_cases h2 : a = k'
      · subst h2; simpa [List.filter_cons, mapLoad] using ih
      · simpa [List.filter_cons, mapLoad, h2] using ih
    · by_cases h2 : a = k'
      · subst h2
        simp [List.filter_cons, mapLoad, h, Ne.symm h]
      · simp only [List.filter_cons, ne_eq, h, not_false_eq_true, decide_True, if_true,
          mapLoad, if_neg h2]
        exact ih

/-! ## The first loop of `threadings` -/

theorem lineStep_fst {F N : Type} (E : Extern F N) (m : List (Str × Str))
    (acc : Devices × World N) (l : Str) :
    (lineStep E m acc l).1 =
      match routed E m l with
      | none => acc.1
      | some t => put acc.1 t := by
  unfold lineStep routed
  by_cases h : TrimSpace l = []
  · simp only [h, if_true]
  · simp only [h, if_false]
    cases parseAppsInstalled E (TrimSpace l) with
    | none => rfl
    | some apps =>
      simp only
      cases mapLoad m apps.DevType with
      | none => rfl
      | some addr =>
        simp only [put]
        cases hl : mapLoad acc.1 addr with
        | none =>
          simp only [mapLoad_mapStore, if_true, Option.getD_some, mapStore_mapStore,
            Option.getD_none]
        | some g => simp only [hl, Option.getD_some]

theorem lineStep_snd {F N : Type} (E : Extern F N) (m : List (Str × Str))
    (acc : Devices × World N) (l : Str) :
    (lineStep E m acc l).2 =
      if isRejected E l = true then { acc.2 with errors := addInt32 acc.2.errors 1 }
      else acc.2 := by
  unfold lineStep isRejected
  by_cases h : TrimSpace l = []
  · simp [h]
  · simp only [h, if_false]
    cases parseAppsInstalled E (TrimSpace l) with
    | none => simp [h]
    | some apps =>
      simp only
      cases mapLoad m apps.DevType with
      | none => simp
      | some addr => simp

theorem lineStep_skip {F N : Type} (E : Extern F N) (m : List (Str × Str))
    (acc : Devices × World N) (l : Str) (h1 : routed E m l = none)
    (h2 : isRejected E l = false) : lineStep E m acc l = acc := by
  apply Prod.ext
  · rw [lineStep_fst, h1]
  · rw [lineStep_snd, h2]; simp

theorem incrN_add (a b : Nat) (x : Int) : incrN a (incrN b x) = incrN (a + b) x := by
  unfold incrN
  rw [Function.iterate_add_apply]

theorem incrN_one (x : Int) : addInt32 x 1 = incrN 1 x := rfl

theorem foldl_lineStep_fst {F N : Type} (E : Extern F N) (m : List (Str × Str))
    (lines : List Str) (d : Devices) (w : World N) :
    (lines.foldl (lineStep E m) (d, w)).1 = putAll (lines.filterMap (routed E m)) d := by
  induction lines generalizing d w with
  | nil => rfl
  | cons l ls ih =>
    rw [List.foldl_cons]
    have h1 := lineStep_fst E m (d, w) l
    rw [show lineStep E m (d, w) l = ((lineStep E m (d, w) l).1, (lineStep E m (d, w) l).2)
      from rfl, ih, h1]
    cases hr : routed E m l with
    | none => simp only [List.filterMap_cons, hr]
    | some t => simp only [List.filterMap_cons, hr, putAll, List.foldl_cons]

theorem foldl_lineStep_snd {F N : Type} (E : Extern F N) (m : List (Str × Str))
    (lines : List Str) (d : Devices) (w : World N) :
    (lines.foldl (lineStep E m) (d, w)).2 =
      { w with errors := incrN (lines.countP (isRejected E)) w.errors } := by
  induction lines generalizing d w with
  | nil => rfl
  | cons l ls ih =>
    rw [List.foldl_cons]
    have h2 := lineStep_snd E m (d, w) l
    rw [show lineStep E m (d, w) l = ((lineStep E m (d, w) l).1, (lineStep E m (d, w) l).2)
      from rfl, ih, h2]
    by_cases hr : isRejected E l = true
    · simp only [hr, if_true, List.countP_cons_of_pos]
      rw [incrN_one, incrN_add]
    · simp only [hr, List.countP_cons_of_neg, Bool.false_eq_true, if_false, not_false_eq_true]

theorem isRejected_eq {F N : Type} (E : Extern F N) (l : Str) :
    isRejected E l = (decide (TrimSpace l ≠ []) && (parseAppsInstalled E l).isNone) := by
  unfold isRejected
  rw [parseAppsInstalled_TrimSpace]

theorem countP_isRejected {F N : Type} (E : Extern F N) (lines : List Str) :
    lines.countP (isRejected E) = rejectedLines E lines := by
  unfold rejectedLines
  congr 1
  funext l
  exact isRejected_eq E l

theorem routed_eq_refEntry {F N : Type} (E : Extern F N) (m : List (Str × Str)) (l : Str)
    (hM : ∀ r, parseAppsInstalled E l = some r → (E.Marshal r.Lat r.Lon r.Apps).isSome) :
    routed E m l = refEntry E m l := by
  unfold routed refEntry
  rw [parseAppsInstalled_TrimSpace]
  by_cases h : TrimSpace l = []
  · simp only [h, if_true]
  · simp only [h, if_false]
    cases hp : parseAppsInstalled E l with
    | none => rfl
    | some r =>
      simp only [Option.some_bind]
      cases mapLoad m r.DevType with
      | none => rfl
      | some e =>
        have hm := hM r hp
        cases hme : E.Marshal r.Lat r.Lon r.Apps with
        | none => rw [hme] at hm; cases hm
        | some pl =>
          simp only [serialize, hme, Option.some_bind, Option.map_some']
          simp

theorem routed_none_of_refEntry {F N : Type} (E : Extern F N) (m : List (Str × Str)) (l : Str)
    (h : ∀ r, parseAppsInstalled E l = some r → mapLoad m r.DevType = none) :
    routed E m l = none := by
  unfold routed
  rw [parseAppsInstalled_TrimSpace]
  by_cases h1 : TrimSpace l = []
  · simp only [h1, if_true]
  · simp only [h1, if_false]
    cases hp : parseAppsInstalled E l with
    | none => rfl
    | some r => simp only [h r hp]

/-! ## Shard groups -/

theorem lookup2_put (d : Devices) (t : Str × Str × Bytes) (e k : Str) :
    lookup2 (put d t) e k = if t.1 = e ∧ t.2.1 = k then some t.2.2 else lookup2 d e k := by
  unfold lookup2 put
  rw [mapLoad_mapStore]
  by_cases h1 : t.1 = e
  · subst h1
    simp only [if_true, Option.some_bind, mapLoad_mapStore, true_and]
    by_cases h2 : t.2.1 = k
    · simp only [h2, if_true]
    · simp only [h2, if_false]
      cases mapLoad d t.1 with
      | none => rfl
      | some g => rfl
  · simp only [h1, if_false, false_and]

theorem lastPayload_cons (t : Str × Str × Bytes) (es : List (Str × Str × Bytes)) (e k : Str) :
    lastPayload (t :: es) e k =
      match lastPayload es e k with
      | some p => some p
      | none => if t.1 = e ∧ t.2.1 = k then some t.2.2 else none := by
  unfold lastPayload
  by_cases h : t.1 = e ∧ t.2.1 = k
  · rw [List.filter_cons_of_pos (by simpa using h), List.getLast?_cons]
    cases (List.filter (fun t => decide (t.1 = e ∧ t.2.1 = k)) es).getLast? with
    | none => simp [h]
    | some x => simp
  · rw [List.filter_cons_of_neg (by simpa using h)]
    cases (List.filter (fun t => decide (t.1 = e ∧ t.2.1 = k)) es).getLast? with
    | none => simp [h]
    | some x => simp

theorem lookup2_putAll (es : List (Str × Str × Bytes)) (d : Devices) (e k : Str) :
    lookup2 (putAll es d) e k =
      match lastPayload es e k with
      | some p => some p
      | none => lookup2 d e k := by
  induction es generalizing d with
  | nil => rfl
  | cons t ts ih =>
    rw [show putAll (t :: ts) d = putAll ts (put d t) from rfl, ih, lastPayload_cons,
      lookup2_put]
    cases lastPayload ts e k with
    | some p => rfl
    | none =>
      by_cases h : t.1 = e ∧ t.2.1 = k
      · simp only [h, and_self, if_true]
      · simp only [h, if_false]

theorem lastPayload_isSome (es : List (Str × Str × Bytes)) (e k : Str) :
    (lastPayload es e k).isSome ↔ ∃ p, (e, k, p) ∈ es := by
  unfold lastPayload
  rw [Option.isSome_map', List.getLast?_isSome]
  constructor
  · intro h
    obtain ⟨x, hx⟩ := List.exists_mem_of_ne_nil _ h
    rw [List.mem_filter] at hx
    obtain ⟨a, b, c⟩ := x
    simp only [decide_eq_true_eq] at hx
    obtain ⟨h1, h2, h3⟩ := hx
    subst h2; subst h3
    exact ⟨c, h1⟩
  · rintro ⟨p, hp⟩ hnil
    have : (e, k, p) ∈ List.filter (fun t => decide (t.1 = e ∧ t.2.1 = k)) es := by
      rw [List.mem_filter]; exact ⟨hp, by simp⟩
    rw [hnil] at this; cases this

theorem GroupOk_put (d : Devices) (t : Str × Str × Bytes) (h : GroupOk d) :
    GroupOk (put d t) := by
  unfold put
  refine ⟨nodup_mapStore _ _ _ h.1, ?_⟩
  intro x hx
  rcases mem_mapStore _ _ _ _ hx with h1 | h1
  · subst h1
    refine ⟨nodup_mapStore _ _ _ ?_, mapStore_ne_nil _ _ _⟩
    cases hl : mapLoad d t.1 with
    | none => exact List.nodup_nil
    | some g => exact (h.2 _ (mapLoad_some_mem _ _ _ hl)).1
  · exact h.2 x h1

theorem GroupOk_putAll (es : List (Str × Str × Bytes)) (d : Devices) (h : GroupOk d) :
    GroupOk (putAll es d) := by
  induction es generalizing d with
  | nil => exact h
  | cons t ts ih => exact ih _ (GroupOk_put d t h)

theorem GroupOk_nil : GroupOk [] :=
  ⟨List.nodup_nil, fun _ hx => absurd hx (List.not_mem_nil _)⟩

theorem mem_keys_putAll (es : List (Str × Str × Bytes)) (d : Devices) (e : Str) :
    e ∈ (putAll es d).map Prod.fst ↔ e ∈ d.map Prod.fst ∨ e ∈ es.map (fun t => t.1) := by
  induction es generalizing d with
  | nil => simp [putAll]
  | cons t ts ih =>
    rw [show putAll (t :: ts) d = putAll ts (put d t) from rfl, ih]
    unfold put
    rw [keys_mapStore]
    by_cases hk : t.1 ∈ d.map Prod.fst
    · rw [if_pos hk, List.map_cons, List.mem_cons]
      constructor
      · rintro (h | h)
        · exact Or.inl h
        · exact Or.inr (Or.inr h)
      · rintro (h | h | h)
        · exact Or.inl h
        · exact Or.inl (h ▸ hk)
        · exact Or.inr h
    · rw [if_neg hk, List.map_cons, List.mem_cons, List.mem_append, List.mem_singleton]
      tauto

theorem length_putAll (es : List (Str × Str × Bytes)) :
    (putAll es []).length = (es.map fun t => t.1).dedup.length := by
  have h1 : ((putAll es []).map Prod.fst).Nodup := (GroupOk_putAll es [] GroupOk_nil).1
  have h2 : ((es.map fun t => t.1).dedup).Nodup := List.nodup_dedup _
  have hp : ((putAll es []).map Prod.fst).Perm ((es.map fun t => t.1).dedup) := by
    rw [List.perm_ext_iff_of_nodup h1 h2]
    intro a
    rw [mem_keys_putAll, List.mem_dedup]
    simp
  have := hp.length_eq
  rw [List.length_map] at this
  exact this

theorem routed_fst {F N : Type} (E : Extern F N) (m : List (Str × Str)) (l : Str) :
    (routed E m l).map (fun t => t.1) = routeOf E m l := by
  unfold routed routeOf
  rw [parseAppsInstalled_TrimSpace]
  by_cases h : TrimSpace l = []
  · simp only [h, if_true, Option.map_none']
  · simp only [h, if_false]
    cases parseAppsInstalled E l with
    | none => rfl
    | some r =>
      simp only [Option.some_bind]
      cases mapLoad m r.DevType with
      | none => rfl
      | some e => rfl

theorem map_fst_routed {F N : Type} (E : Extern F N) (m : List (Str × Str))
    (lines : List Str) :
    (lines.filterMap (routed E m)).map (fun t => t.1) = lines.filterMap (routeOf E m) := by
  induction lines with
  | nil => rfl
  | cons l ls ih =>
    have h := routed_fst E m l
    cases hr : routed E m l with
    | none =>
      rw [hr] at h
      simp only [List.filterMap_cons, hr, ← h, Option.map_none', ih]
    | some t =>
      rw [hr] at h
      simp only [List.filterMap_cons, hr, ← h, Option.map_some', List.map_cons, ih]

theorem groupLines_length {F N : Type} (E : Extern F N) (lines : List Str)
    (m : List (Str × Str)) (w : World N) :
    (groupLines E lines m w).1.length = endpointsTouched E m lines := by
  unfold groupLines endpointsTouched
  rw [foldl_lineStep_fst, length_putAll, map_fst_routed]

/-! ## The second loop of `threadings` -/

theorem setLoop_frame {F N : Type} (E : Extern F N) (a : Str) (c : Client)
    (items : List (Str × Bytes)) (w : World N) :
    (setLoop E a c items w).2.errors = w.errors ∧
    (setLoop E a c items w).2.processed = w.processed ∧
    (setLoop E a c items w).2.inserts = w.inserts := by
  induction items generalizing w with
  | nil => exact ⟨rfl, rfl, rfl⟩
  | cons it rest ih =>
    obtain ⟨k, v⟩ := it
    unfold setLoop
    simp only
    cases (E.Set w.net c.addr k v).2 with
    | ok => simp only; exact ih _
    | serverError => exact ⟨rfl, rfl, rfl⟩
    | otherError => exact ⟨rfl, rfl, rfl⟩

theorem insert_frame {F N : Type} (E : Extern F N) (a : Str) (vals : List (Str × Bytes))
    (dry : Bool) (w : World N) :
    (insertAppsInstalled E a vals dry w).2.errors = w.errors ∧
    (insertAppsInstalled E a vals dry w).2.processed = w.processed ∧
    (insertAppsInstalled E a vals dry w).2.inserts = w.inserts := by
  unfold insertAppsInstalled
  cases mapLoad w.memcConnections a with
  | none =>
    cases dry with
    | true => exact ⟨rfl, rfl, rfl⟩
    | false => simp only [Bool.false_eq_true, if_false]; exact setLoop_frame E a _ _ _
  | some conn =>
    cases dry with
    | true => exact ⟨rfl, rfl, rfl⟩
    | false => simp only [Bool.false_eq_true, if_false]; exact setLoop_frame E a _ _ _

theorem insert_dry {F N : Type} (E : Extern F N) (a : Str) (vals : List (Str × Bytes))
    (w : World N) :
    (insertAppsInstalled E a vals true w).1 = true ∧
    (insertAppsInstalled E a vals true w).2.sets = w.sets ∧
    (insertAppsInstalled E a vals true w).2.net = w.net := by
  unfold insertAppsInstalled
  cases mapLoad w.memcConnections a with
  | none => exact ⟨rfl, rfl, rfl⟩
  | some conn => exact ⟨rfl, rfl, rfl⟩

theorem writeStep_cases {F N : Type} (E : Extern F N) (opts : Options) (w : World N)
    (x : Str × List (Str × Bytes)) :
    (writeStep E opts w x).inserts = w.inserts ++ [x] ∧
    (((writeStep E opts w x).processed = addInt32 w.processed 1 ∧
        (writeStep E opts w x).errors = w.errors) ∨
     ((writeStep E opts w x).processed = w.processed ∧
        (writeStep E opts w x).errors = addInt32 w.errors 1)) := by
  have hf := insert_frame E x.1 x.2 opts.dry { w with inserts := w.inserts ++ [x] }
  unfold writeStep
  simp only
  cases (insertAppsInstalled E x.1 x.2 opts.dry { w with inserts := w.inserts ++ [x] }).1 with
  | true =>
    simp only [if_true]
    exact ⟨hf.2.2, Or.inl ⟨by rw [hf.2.1], hf.1⟩⟩
  | false =>
    simp only [Bool.false_eq_true, if_false]
    exact ⟨hf.2.2, Or.inr ⟨hf.2.1, by rw [hf.1]⟩⟩

theorem writeStep_dry {F N : Type} (E : Extern F N) (opts : Options) (w : World N)
    (x : Str × List (Str × Bytes)) (hd : opts.dry = true) :
    (writeStep E opts w x).processed = addInt32 w.processed 1 ∧
    (writeStep E opts w x).errors = w.errors ∧
    (writeStep E opts w x).sets = w.sets ∧
    (writeStep E opts w x).net = w.net := by
  have hf := insert_frame E x.1 x.2 true { w with inserts := w.inserts ++ [x] }
  have hdry := insert_dry E x.1 x.2 { w with inserts := w.inserts ++ [x] }
  unfold writeStep
  simp only [hd, hdry.1, if_true]
  exact ⟨by rw [hf.2.1], hf.1, hdry.2.1, hdry.2.2⟩

theorem foldl_writeStep {F N : Type} (E : Extern F N) (opts : Options)
    (L : List (Str × List (Str × Bytes))) (w : World N) :
    ∃ ok failed, ok + failed = L.length ∧
      (L.foldl (writeStep E opts) w).processed = incrN ok w.processed ∧
      (L.foldl (writeStep E opts) w).errors = incrN failed w.errors ∧
      (L.foldl (writeStep E opts) w).inserts = w.inserts ++ L := by
  induction L generalizing w with
  | nil => exact ⟨0, 0, rfl, rfl, rfl, by simp⟩
  | cons x xs ih =>
    obtain ⟨ok, failed, hlen, hp, he, hi⟩ := ih (writeStep E opts w x)
    obtain ⟨h1, h2⟩ := writeStep_cases E opts w x
    rw [List.foldl_cons]
    rcases h2 with ⟨h3, h4⟩ | ⟨h3, h4⟩
    · refine ⟨ok + 1, failed, by simp only [List.length_cons]; omega, ?_, ?_, ?_⟩
      · rw [hp, h3, incrN_one, incrN_add]
      · rw [he, h4]
      · rw [hi, h1, List.append_assoc]; rfl
    · refine ⟨ok, failed + 1, by simp only [List.length_cons]; omega, ?_, ?_, ?_⟩
      · rw [hp, h3]
      · rw [he, h4, incrN_one, incrN_add]
      · rw [hi, h1, List.append_assoc]; rfl

theorem foldl_writeStep_dry {F N : Type} (E : Extern F N) (opts : Options)
    (hd : opts.dry = true) (L : List (Str × List (Str × Bytes))) (w : World N) :
    (L.foldl (writeStep E opts) w).processed = incrN L.length w.processed ∧
    (L.foldl (writeStep E opts) w).errors = w.errors ∧
    (L.foldl (writeStep E opts) w).sets = w.sets ∧
    (L.foldl (writeStep E opts) w).net = w.net := by
  induction L generalizing w with
  | nil => exact ⟨rfl, rfl, rfl, rfl⟩
  | cons x xs ih =>
    obtain ⟨hp, he, hs, hn⟩ := ih (writeStep E opts w x)
    obtain ⟨h1, h2, h3, h4⟩ := writeStep_dry E opts w x hd
    rw [List.foldl_cons]
    refine ⟨?_, ?_, ?_, ?_⟩
    · rw [hp, h1, incrN_one, incrN_add]; rfl
    · rw [he, h2]
    · rw [hs, h3]
    · rw [hn, h4]

theorem groupLines_snd {F N : Type} (E : Extern F N) (lines : List Str)
    (m : List (Str × Str)) (w : World N) :
    (groupLines E lines m w).2 =
      { w with errors := incrN (rejectedLines E lines) w.errors } := by
  unfold groupLines
  rw [foldl_lineStep_snd, countP_isRejected]

/-! ## Counters and write outcomes -/

theorem toUint32_natCast (n : Nat) : toUint32 (n : Int) = n % 2 ^ 32 := by
  unfold toUint32
  have h : (2 : Int) ^ 32 = 4294967296 := by norm_num
  have h2 : (2 : Nat) ^ 32 = 4294967296 := by norm_num
  rw [h, h2]
  omega

theorem toUint32_neg_natCast (n : Nat) :
    toUint32 (-(n : Int)) = (2 ^ 32 - n % 2 ^ 32) % 2 ^ 32 := by
  unfold toUint32
  have h : (2 : Int) ^ 32 = 4294967296 := by norm_num
  have h2 : (2 : Nat) ^ 32 = 4294967296 := by norm_num
  rw [h, h2]
  omega

theorem incrN_formula (k : Nat) (x : Int) (h0 : -2 ^ 31 ≤ x) (h1 : x < 2 ^ 31) :
    incrN k x = (x + k + 2 ^ 31) % 2 ^ 32 - 2 ^ 31 := by
  have e31 : (2 : Int) ^ 31 = 2147483648 := by norm_num
  have e32 : (2 : Int) ^ 32 = 4294967296 := by norm_num
  rw [e31] at h0 h1
  induction k with
  | zero =>
    rw [e31, e32]
    show x = _
    simp only [Nat.cast_zero, add_zero]
    omega
  | succ k ih =>
    have hs : incrN (k + 1) x = addInt32 (incrN k x) 1 := by
      unfold incrN
      rw [Function.iterate_succ_apply']
    rw [hs, ih]
    unfold addInt32 wrapInt32
    rw [e31, e32]
    push_cast
    omega

theorem setLoop_sameStore {F N : Type} (E : Extern F N) (a : Str) (c : Client)
    (items : List (Str × Bytes)) (w w1 : World N) (h : sameStore w w1) :
    (setLoop E a c items w).1 = (setLoop E a c items w1).1 ∧
    sameStore (setLoop E a c items w).2 (setLoop E a c items w1).2 := by
  induction items generalizing w w1 with
  | nil => exact ⟨rfl, h⟩
  | cons it rest ih =>
    obtain ⟨k, v⟩ := it
    obtain ⟨conns, net, e, p, sets, ins⟩ := w
    obtain ⟨conns1, net1, e1, p1, sets1, ins1⟩ := w1
    obtain ⟨hc, hn, hs⟩ := h
    simp only at hc hn hs
    subst hc; subst hn; subst hs
    rw [setLoop, setLoop]
    simp only
    cases (E.Set net c.addr k v).2 with
    | ok => exact ih _ _ ⟨rfl, rfl, rfl⟩
    | serverError => exact ⟨rfl, rfl, rfl, rfl⟩
    | otherError => exact ⟨rfl, rfl, rfl, rfl⟩

theorem insert_sameStore {F N : Type} (E : Extern F N) (a : Str)
    (vals : List (Str × Bytes)) (dry : Bool) (w w1 : World N) (h : sameStore w w1) :
    (insertAppsInstalled E a vals dry w).1 = (insertAppsInstalled E a vals dry w1).1 ∧
    sameStore (insertAppsInstalled E a vals dry w).2 (insertAppsInstalled E a vals dry w1).2 := by
  obtain ⟨conns, net, e, p, sets, ins⟩ := w
  obtain ⟨conns1, net1, e1, p1, sets1, ins1⟩ := w1
  obtain ⟨hc, hn, hs⟩ := h
  simp only at hc hn hs
  subst hc; subst hn; subst hs
  unfold insertAppsInstalled
  simp only
  cases mapLoad conns a with
  | none =>
    cases dry with
    | true => exact ⟨rfl, rfl, rfl, rfl⟩
    | false =>
      simp only [Bool.false_eq_true, if_false]
      exact setLoop_sameStore E a _ _ _ _ ⟨rfl, rfl, rfl⟩
  | some conn =>
    cases dry with
    | true => exact ⟨rfl, rfl, rfl, rfl⟩
    | false =>
      simp only [Bool.false_eq_true, if_false]
      exact setLoop_sameStore E a _ _ _ _ ⟨rfl, rfl, rfl⟩

theorem writeStep_outcome {F N : Type} (E : Extern F N) (opts : Options) (w w1 : World N)
    (x : Str × List (Str × Bytes)) (h : sameStore w w1) :
    sameStore (writeStep E opts w x) (insertAppsInstalled E x.1 x.2 opts.dry w1).2 ∧
    (writeStep E opts w x).processed =
      (if (insertAppsInstalled E x.1 x.2 opts.dry w1).1 = true then addInt32 w.processed 1
        else w.processed) ∧
    (writeStep E opts w x).errors =
      (if (insertAppsInstalled E x.1 x.2 opts.dry w1).1 = true then w.errors
        else addInt32 w.errors 1) := by
  have hs : sameStore { w with inserts := w.inserts ++ [x] } w1 := h
  obtain ⟨h1, h2⟩ := insert_sameStore E x.1 x.2 opts.dry _ _ hs
  have hf := insert_frame E x.1 x.2 opts.dry { w with inserts := w.inserts ++ [x] }
  unfold writeStep
  simp only
  rw [← h1]
  cases (insertAppsInstalled E x.1 x.2 opts.dry { w with inserts := w.inserts ++ [x] }).1 with
  | true =>
    simp only [if_true]
    exact ⟨h2, by rw [hf.2.1], hf.1⟩
  | false =>
    simp only [Bool.false_eq_true, if_false]
    exact ⟨h2, hf.2.1, by rw [hf.1]⟩

theorem foldl_writeStep_outcomes {F N : Type} (E : Extern F N) (opts : Options)
    (L : List (Str × List (Str × Bytes))) (w w1 : World N) (h : sameStore w w1) :
    (L.foldl (writeStep E opts) w).processed
      = incrN ((insertOutcomes E opts.dry L w1).count true) w.processed ∧
    (L.foldl (writeStep E opts) w).errors
      = incrN ((insertOutcomes E opts.dry L w1).count false) w.errors ∧
    (insertOutcomes E opts.dry L w1).length = L.length := by
  induction L generalizing w w1 with
  | nil => exact ⟨rfl, rfl, rfl⟩
  | cons x xs ih =>
    obtain ⟨hs, hp, he⟩ := writeStep_outcome E opts w w1 x h
    obtain ⟨ihp, ihe, ihl⟩ := ih _ _ hs
    rw [List.foldl_cons, insertOutcomes]
    refine ⟨?_, ?_, by simp only [List.length_cons, ihl]⟩
    · rw [ihp, hp]
      cases (insertAppsInstalled E x.1 x.2 opts.dry w1).1 with
      | true => simp only [if_true, List.count_cons_self, incrN_one, incrN_add]
      | false => simp [List.count_cons]
    · rw [ihe, he]
      cases (insertAppsInstalled E x.1 x.2 opts.dry w1).1 with
      | true => simp [List.count_cons]
      | false =>
        simp only [Bool.false_eq_true, if_false, List.count_cons_self, incrN_one, incrN_add]

theorem insertOutcomes_dry {F N : Type} (E : Extern F N)
    (L : List (Str × List (Str × Bytes))) (w : World N) :
    insertOutcomes E true L w = List.replicate L.length true := by
  induction L generalizing w with
  | nil => rfl
  | cons x xs ih =>
    rw [insertOutcomes, (insert_dry E x.1 x.2 w).1, ih, List.length_cons, List.replicate_succ]

theorem Atoi_unsigned (s : Str) (hm : ∀ ds, s ≠ '-' :: ds) (hp : ∀ ds, s ≠ '+' :: ds) :
    Atoi s = match parseDigits s with
      | some n => if n < 2 ^ 63 then some (n : Int) else none
      | none => none := by
  unfold Atoi
  split
  · rename_i ds; exact absurd rfl (hm ds)
  · rename_i ds; exact absurd rfl (hp ds)
  · rfl

theorem keptInt_unsigned (s : Str) (hm : ∀ ds, s ≠ '-' :: ds) (hp : ∀ ds, s ≠ '+' :: ds) :
    keptInt s = if s ≠ [] ∧ s.all isDigit = true ∧ digitsValue s < 2 ^ 63 then
        some (digitsValue s % 2 ^ 32)
      else none := by
  unfold keptInt
  split
  · rename_i ds; exact absurd rfl (hm ds)
  · rename_i ds; exact absurd rfl (hp ds)
  · rfl

theorem digits_case (ds : Str) (neg : Bool) :
    (match parseDigits ds with
      | some n =>
        if (if neg then n ≤ 2 ^ 63 else n < 2 ^ 63) then
          some (if neg then -(n : Int) else (n : Int))
        else none
      | none => none).map toUint32 =
    if ds ≠ [] ∧ ds.all isDigit = true ∧
        (if neg then digitsValue ds ≤ 2 ^ 63 else digitsValue ds < 2 ^ 63) then
      some (if neg then (2 ^ 32 - digitsValue ds % 2 ^ 32) % 2 ^ 32
        else digitsValue ds % 2 ^ 32)
    else none := by
  unfold parseDigits
  cases neg with
  | true =>
    simp only [if_true]
    by_cases h1 : ds ≠ [] ∧ ds.all isDigit = true
    · rw [if_pos h1]
      simp only
      by_cases h2 : digitsValue ds ≤ 2 ^ 63
      · rw [if_pos h2, if_pos ⟨h1.1, h1.2, h2⟩, Option.map_some', toUint32_neg_natCast]
      · rw [if_neg h2, if_neg (fun h => h2 h.2.2), Option.map_none']
    · rw [if_neg h1, if_neg (fun h => h1 ⟨h.1, h.2.1⟩)]
      rfl
  | false =>
    simp only [Bool.false_eq_true, if_false]
    by_cases h1 : ds ≠ [] ∧ ds.all isDigit = true
    · rw [if_pos h1]
      simp only
      by_cases h2 : digitsValue ds < 2 ^ 63
      · rw [if_pos h2, if_pos ⟨h1.1, h1.2, h2⟩, Option.map_some', toUint32_natCast]
      · rw [if_neg h2, if_neg (fun h => h2 h.2.2), Option.map_none']
    · rw [if_neg h1, if_neg (fun h => h1 ⟨h.1, h.2.1⟩)]
      rfl

theorem Atoi_keptInt (s : Str) : (Atoi s).map toUint32 = keptInt s := by
  cases s with
  | nil => rfl
  | cons c cs =>
    by_cases hm : c = '-'
    · subst hm
      have := digits_case cs true
      simp only [if_true] at this
      exact this
    · by_cases hp : c = '+'
      · subst hp
        have := digits_case cs false
        simp only [Bool.false_eq_true, if_false] at this
        exact this
      · have h1 : ∀ ds, c :: cs ≠ '-' :: ds := by
          intro ds h; injection h with h2 _; exact hm h2
        have h2 : ∀ ds, c :: cs ≠ '+' :: ds := by
          intro ds h; injection h with h3 _; exact hp h3
        rw [Atoi_unsigned _ h1 h2, keptInt_unsigned _ h1 h2]
        have := digits_case (c :: cs) false
        simp only [Bool.false_eq_true, if_false] at this
        exact this

theorem Atoi_keptValue (t : Str) : (Atoi (TrimSpace t)).map toUint32 = keptValue t :=
  Atoi_keptInt (TrimSpace t)

theorem parseApps_keptValue (toks : List Str) : parseApps toks = toks.filterMap keptValue := by
  induction toks with
  | nil => rfl
  | cons t ts ih =>
    have h := Atoi_keptValue t
    cases ha : Atoi (TrimSpace t) with
    | none =>
      rw [ha] at h
      simp only [parseApps, ha, List.filterMap_cons, ← h, Option.map_none', ih]
    | some v =>
      rw [ha] at h
      simp only [parseApps, ha, List.filterMap_cons, ← h, Option.map_some', ih]

/-! ## Claims about parsing -/

/-- C1 as stated fails: in `idfa<TAB>abc<TAB>NaN<TAB>42.42<TAB>1` the
latitude `NaN` is not a numeric text, `strconv.ParseFloat` accepts it, and
the line is parsed and stored in the shard group of the idfa endpoint. -/
theorem C1_counterexample :
    (fieldsOf "idfa\tabc\tNaN\t42.42\t1".toList)[2]? = some "NaN".toList ∧
    isNumericText "NaN".toList = false ∧
    (parseAppsInstalled (sampleExtern [] []) "idfa\tabc\tNaN\t42.42\t1".toList).isSome = true ∧
    (lookup2 (groupLines (sampleExtern [] []) ["idfa\tabc\tNaN\t42.42\t1".toList]
      (deviceMemcOf defaultOptions) world0).1
      "127.0.0.1:33013".toList "idfa:abc".toList).isSome = true := by
  decide

/-- C1, amended: `parseAppsInstalled` rejects a line exactly when, after
trimming, it has fewer than five tab-separated fields, or an empty
device-type or device-id, or a latitude or longitude for which `ParseFloat`
returns an error; for a rejected line the first loop of `threadings` leaves
every shard group as it was: the group built from a batch holding the line
is the group built from the batch without it; and an accepted line whose
device-type is in the routing table is stored under its key, whatever the
coordinates `ParseFloat` gave. -/
theorem C1_rejection_conditions {F N : Type} (E : Extern F N) (line : Str) :
    (parseAppsInstalled E line = none ↔
      ((fieldsOf line).length < 5 ∨ (fieldsOf line)[0]? = some [] ∨
        (fieldsOf line)[1]? = some [] ∨
        (∃ la, (fieldsOf line)[2]? = some la ∧ E.ParseFloat la = none) ∨
        (∃ lo, (fieldsOf line)[3]? = some lo ∧ E.ParseFloat lo = none))) ∧
    (parseAppsInstalled E line = none →
      (∀ (m : List (Str × Str)) (acc : Devices × World N), (lineStep E m acc line).1 = acc.1) ∧
      (∀ (m : List (Str × Str)) (pre post : List Str) (w : World N),
        (groupLines E (pre ++ line :: post) m w).1 = (groupLines E (pre ++ post) m w).1)) ∧
    (∀ (r : AppsInstalled F) (m : List (Str × Str)) (e : Str) (p : Bytes)
        (acc : Devices × World N),
      parseAppsInstalled E line = some r → mapLoad m r.DevType = some e →
      E.Marshal r.Lat r.Lon r.Apps = some p →
      lookup2 (lineStep E m acc line).1 e (r.DevType ++ ":".toList ++ r.DevID) = some p) := by
  refine ⟨⟨?_, ?_⟩, ?_, ?_⟩
  · intro hnone
    by_cases hlen : (fieldsOf line).length < 5
    · exact Or.inl hlen
    · obtain ⟨dt, id, la, lo, ra, rest, hf⟩ := fields_shape line hlen
      rw [parse_fields E line dt id la lo ra rest hf] at hnone
      rw [hf]
      by_cases hdt : dt = []
      · exact Or.inr (Or.inl (by simp [hdt]))
      · by_cases hid : id = []
        · exact Or.inr (Or.inr (Or.inl (by simp [hid])))
        · rw [if_neg (by simp [hdt, hid])] at hnone
          cases hla : E.ParseFloat la with
          | none => exact Or.inr (Or.inr (Or.inr (Or.inl ⟨la, by simp, hla⟩)))
          | some lat =>
            cases hlo : E.ParseFloat lo with
            | none => exact Or.inr (Or.inr (Or.inr (Or.inr ⟨lo, by simp, hlo⟩)))
            | some lon => simp [hla, hlo] at hnone
  · intro h
    by_cases hlen : (fieldsOf line).length < 5
    · exact parse_short E line hlen
    · obtain ⟨dt, id, la, lo, ra, rest, hf⟩ := fields_shape line hlen
      rw [parse_fields E line dt id la lo ra rest hf]
      rcases h with h | h | h | ⟨x, h, hx⟩ | ⟨x, h, hx⟩ <;> try rw [hf] at h
      · exact absurd h (hf ▸ hlen)
      · simp at h; simp [h]
      · simp at h; simp [h]
      · simp at h; subst h; simp [hx]
      · simp at h; subst h
        by_cases hd : dt = [] ∨ id = []
        · simp [hd]
        · rw [if_neg hd, hx]
          cases E.ParseFloat la <;> rfl
  · intro hp
    have hr : ∀ m : List (Str × Str), routed E m line = none := by
      intro m
      unfold routed
      rw [parseAppsInstalled_TrimSpace, hp]
      simp
    refine ⟨?_, ?_⟩
    · intro m acc
      rw [lineStep_fst, hr]
    · intro m pre post w
      unfold groupLines
      rw [foldl_lineStep_fst, foldl_lineStep_fst, List.filterMap_append, List.filterMap_cons,
        hr, List.filterMap_append]
  · intro r m e p acc hp hm hM
    have hne : TrimSpace line ≠ [] := by
      intro h0
      obtain ⟨dt, id, la, lo, ra, rest, hshape, -⟩ := parse_some_fields E line r hp
      unfold fieldsOf at hshape
      rw [h0] at hshape
      simp [Split] at hshape
    have hrt : routed E m line = some (e, r.DevType ++ ":".toList ++ r.DevID, p) := by
      rw [routed_eq_refEntry E m line (fun r2 h2 => by
        rw [hp] at h2; cases h2; rw [hM]; rfl)]
      unfold refEntry
      rw [if_neg hne, hp]
      simp only [Option.some_bind, hm, hM, Option.map_some']
    rw [lineStep_fst, hrt]
    simp only
    rw [lookup2_put]
    simp

/-- C1, amended, at the line `idfa<TAB>abc<TAB>north<TAB>42.42<TAB>1,2`,
whose latitude `ParseFloat` refuses. -/
theorem C1_rejection_conditions_witness :
    parseAppsInstalled (sampleExtern [] []) "idfa\tabc\tnorth\t42.42\t1,2".toList = none ∧
    (groupLines (sampleExtern [] [])
      ["gaid\tq\t1.5\t2.5\t7".toList, "idfa\tabc\tnorth\t42.42\t1,2".toList]
      (deviceMemcOf defaultOptions) world0).1 =
    (groupLines (sampleExtern [] []) ["gaid\tq\t1.5\t2.5\t7".toList]
      (deviceMemcOf defaultOptions) world0).1 :=
  have h := C1_rejection_conditions (sampleExtern [] []) "idfa\tabc\tnorth\t42.42\t1,2".toList
  have hn := h.1.2 (Or.inr (Or.inr (Or.inr (Or.inl ⟨"north".toList, by decide, by decide⟩))))
  ⟨hn, (h.2.1 hn).2 (deviceMemcOf defaultOptions) ["gaid\tq\t1.5\t2.5\t7".toList] [] world0⟩

/-- C2 as stated fails: in the app field `1,-1,4294967296,2` only `1` and
`2` are decimal unsigned integers that fit 32 bits, yet the record keeps four
numbers, `-1` as `4294967295` and `4294967296` as `0`. -/
theorem C2_counterexample :
    (parseAppsInstalled (sampleExtern [] [])
      "idfa\tabc\t55.55\t42.42\t1,-1,4294967296,2".toList).map (fun r => r.Apps)
      = some [1, 4294967295, 0, 2] ∧
    ((Split "1,-1,4294967296,2".toList ',').filter isNumericToken).map tokenValue = [1, 2] := by
  decide

/-- C2, amended: when `parseAppsInstalled` accepts a line, the record's app
list is, in order, what `keptValue` gives for the tokens of the app field: a
token that after trimming is an optionally signed run of digits within the
`int64` range is kept as its value modulo `2^32`, every other token is
dropped.  When each token is a numeric token (decimal digits with a value
below `2^32`) or a non-numeric token (a text that denotes no integer), the
list is the values of the numeric tokens; the app field `1,x,2` gives
`[1, 2]`; and no app field makes the parser reject: every line with the same
first four fields and some fifth field is accepted. -/
theorem C2_app_tokens {F N : Type} (E : Extern F N) (line rawApps : Str)
    (r : AppsInstalled F) (hacc : parseAppsInstalled E line = some r)
    (hf : (fieldsOf line)[4]? = some rawApps) :
    r.Apps = (Split rawApps ',').filterMap keptValue ∧
    ((∀ t ∈ Split rawApps ',', isNumericToken t = true ∨ isNonNumericToken t = true) →
      r.Apps = ((Split rawApps ',').filter isNumericToken).map tokenValue) ∧
    (rawApps = "1,x,2".toList → r.Apps = [1, 2]) ∧
    (∀ (line2 apps2 : Str) (rest2 : List Str),
      fieldsOf line2 = (fieldsOf line).take 4 ++ apps2 :: rest2 →
      parseAppsInstalled E line2 =
        some { r with Apps := (Split apps2 ',').filterMap keptValue }) := by
  obtain ⟨dt, id, la, lo, ra, rest, hshape, hdt, hid, hla, hlo, hrdt, hrid, hApps⟩ :=
    parse_some_fields E line r hacc
  rw [hshape] at hf
  simp at hf
  subst hf
  have h1 : (∀ t ∈ Split ra ',', isNumericToken t = true ∨ isNonNumericToken t = true) →
      r.Apps = ((Split ra ',').filter isNumericToken).map tokenValue := by
    intro htok
    rw [hApps]
    exact parseApps_tokens _ htok
  refine ⟨by rw [hApps, parseApps_keptValue], h1, ?_, ?_⟩
  · intro hra
    subst hra
    rw [h1 (by decide)]
    decide
  · intro line2 apps2 rest2 h2
    rw [hshape] at h2
    simp only [List.take_succ_cons, List.take_zero, List.cons_append, List.nil_append] at h2
    rw [parse_fields E line2 dt id la lo apps2 rest2 h2, if_neg (by simp [hdt, hid]), hla, hlo,
      parseApps_keptValue]
    simp only [Option.some_bind, hrdt, hrid]

/-- C2, amended, at the lines with app fields `1,x,2` and
`1,-1,4294967296,2`. -/
theorem C2_app_tokens_witness :
    (∃ r, parseAppsInstalled (sampleExtern [] []) "idfa\tabc\t55.55\t42.42\t1,x,2".toList
        = some r ∧ r.Apps = [1, 2]) ∧
    (∃ r, parseAppsInstalled (sampleExtern [] [])
        "idfa\tabc\t55.55\t42.42\t1,-1,4294967296,2".toList = some r ∧
      r.Apps = [1, 4294967295, 0, 2]) :=
  ⟨⟨⟨"idfa".toList, "abc".toList, "55.55".toList, "42.42".toList, [1, 2]⟩, by decide,
    (C2_app_tokens (sampleExtern [] []) "idfa\tabc\t55.55\t42.42\t1,x,2".toList
      "1,x,2".toList ⟨"idfa".toList, "abc".toList, "55.55".toList, "42.42".toList, [1, 2]⟩
      (by decide) (by decide)).2.2.1 rfl⟩,
   ⟨⟨"idfa".toList, "abc".toList, "55.55".toList, "42.42".toList, [1, 4294967295, 0, 2]⟩,
    by decide,
    (C2_app_tokens (sampleExtern [] []) "idfa\tabc\t55.55\t42.42\t1,-1,4294967296,2".toList
      "1,-1,4294967296,2".toList
      ⟨"idfa".toList, "abc".toList, "55.55".toList, "42.42".toList, [1, 4294967295, 0, 2]⟩
      (by decide) (by decide)).1.trans (by decide)⟩⟩

/-- C3 as stated fails: the line `idfa<TAB>abc<TAB>55.55<TAB>42.42<TAB>` has a
non-empty device-type and device-id and numeric coordinates, and
`parseAppsInstalled` rejects it. -/
theorem C3_counterexample :
    "idfa".toList ≠ [] ∧ "abc".toList ≠ [] ∧
    ((sampleExtern [] []).ParseFloat "55.55".toList).isSome = true ∧
    ((sampleExtern [] []).ParseFloat "42.42".toList).isSome = true ∧
    parseAppsInstalled (sampleExtern [] [])
      ("idfa".toList ++ '\t' :: ("abc".toList ++ '\t' :: ("55.55".toList ++ '\t' ::
        ("42.42".toList ++ '\t' :: [])))) = none := by
  decide

/-- C3, amended: a line that ends with the tab after the longitude is
trimmed to four fields and rejected; an empty app field is accepted when
trimming leaves it in place (further tab-separated text follows it), and the
record then has an empty app list. -/
theorem C3_empty_app_list {F N : Type} (E : Extern F N) :
    (∀ dt id la lo : Str, '\t' ∉ dt → '\t' ∉ id → '\t' ∉ la → '\t' ∉ lo →
      parseAppsInstalled E (dt ++ '\t' :: (id ++ '\t' :: (la ++ '\t' :: (lo ++ '\t' :: []))))
        = none) ∧
    (∀ (line dt id la lo : Str) (rest : List Str) (lat lon : F),
      fieldsOf line = dt :: id :: la :: lo :: [] :: rest → dt ≠ [] → id ≠ [] →
      E.ParseFloat la = some lat → E.ParseFloat lo = some lon →
      parseAppsInstalled E line =
        some { DevType := dt, DevID := id, Lat := lat, Lon := lon, Apps := [] }) := by
  constructor
  · intro dt id la lo h1 h2 h3 h4
    apply parse_short
    unfold fieldsOf
    rw [Split_length]
    have hx : dt ++ '\t' :: (id ++ '\t' :: (la ++ '\t' :: (lo ++ '\t' :: [])))
        = (dt ++ '\t' :: (id ++ '\t' :: (la ++ '\t' :: lo))) ++ ['\t'] := by
      simp [List.append_assoc]
    rw [hx, TrimSpace_append_space _ _ (by decide)]
    have hsub := (TrimSpace_sublist (dt ++ '\t' :: (id ++ '\t' :: (la ++ '\t' :: lo)))).count_le '\t'
    have hc : (dt ++ '\t' :: (id ++ '\t' :: (la ++ '\t' :: lo))).count '\t' = 3 := by
      simp [List.count_append, List.count_cons, List.count_eq_zero_of_not_mem, h1, h2, h3, h4]
    omega
  · intro line dt id la lo rest lat lon hf hdt hid hla hlo
    rw [parse_fields E line dt id la lo [] rest hf, hla, hlo]
    simp [hdt, hid]
    decide

/-- C3, amended, at `idfa<TAB>abc<TAB>55.55<TAB>42.42<TAB>` (rejected) and at
`idfa<TAB>abc<TAB>55.55<TAB>42.42<TAB><TAB>x` (accepted, no apps). -/
theorem C3_empty_app_list_witness :
    parseAppsInstalled (sampleExtern [] []) "idfa\tabc\t55.55\t42.42\t".toList = none ∧
    parseAppsInstalled (sampleExtern [] []) "idfa\tabc\t55.55\t42.42\t\tx".toList =
      some { DevType := "idfa".toList, DevID := "abc".toList, Lat := "55.55".toList,
             Lon := "42.42".toList, Apps := [] } :=
  ⟨(C3_empty_app_list (sampleExtern [] [])).1 "idfa".toList "abc".toList "55.55".toList
      "42.42".toList (by decide) (by decide) (by decide) (by decide),
   (C3_empty_app_list (sampleExtern [] [])).2 "idfa\tabc\t55.55\t42.42\t\tx".toList
      "idfa".toList "abc".toList "55.55".toList "42.42".toList ["x".toList]
      "55.55".toList "42.42".toList (by decide) (by decide) (by decide) (by decide) (by decide)⟩

/-! ## Claims about `threadings` -/

theorem threadings_eq {F N : Type} (E : Extern F N) (lines : List Str)
    (m : List (Str × Str)) (opts : Options) (w : World N) :
    threadings E lines m opts w =
      (E.range (groupLines E lines m w).1).foldl (writeStep E opts)
        { w with errors := incrN (rejectedLines E lines) w.errors } := by
  unfold threadings
  simp only
  rw [groupLines_snd]

theorem sample_routed {F N : Type} (E : Extern F N) (lat lon : F) (p1 p2 : Bytes)
    (hla : E.ParseFloat "55.55".toList = some lat) (hlo : E.ParseFloat "42.42".toList = some lon)
    (h1 : E.Marshal lat lon [1423, 43, 567, 3, 7, 23] = some p1)
    (h2 : E.Marshal lat lon [7423, 424] = some p2) :
    sampleLines.filterMap (routed E (deviceMemcOf defaultOptions)) =
      [("127.0.0.1:33013".toList, "idfa:1rfw452y52g2gq4g".toList, p1),
       ("127.0.0.1:33014".toList, "gaid:7rfw452y52g2gq4g".toList, p2)] := by
  have hs : sampleLines =
      ["idfa\t1rfw452y52g2gq4g\t55.55\t42.42\t1423,43,567,3,7,23".toList,
       "gaid\t7rfw452y52g2gq4g\t55.55\t42.42\t7423,424".toList] := by decide
  have hf1 : fieldsOf "idfa\t1rfw452y52g2gq4g\t55.55\t42.42\t1423,43,567,3,7,23".toList =
      ["idfa".toList, "1rfw452y52g2gq4g".toList, "55.55".toList, "42.42".toList,
       "1423,43,567,3,7,23".toList] := by decide
  have hf2 : fieldsOf "gaid\t7rfw452y52g2gq4g\t55.55\t42.42\t7423,424".toList =
      ["gaid".toList, "7rfw452y52g2gq4g".toList, "55.55".toList, "42.42".toList,
       "7423,424".toList] := by decide
  have ha1 : parseApps (Split "1423,43,567,3,7,23".toList ',') = [1423, 43, 567, 3, 7, 23] := by
    decide
  have ha2 : parseApps (Split "7423,424".toList ',') = [7423, 424] := by decide
  have hd1 : ¬ ("idfa".toList = [] ∨ "1rfw452y52g2gq4g".toList = []) := by decide
  have hd2 : ¬ ("gaid".toList = [] ∨ "7rfw452y52g2gq4g".toList = []) := by decide
  have hp1 := parse_fields E _ _ _ _ _ _ _ hf1
  have hp2 := parse_fields E _ _ _ _ _ _ _ hf2
  rw [if_neg hd1, hla, hlo, ha1] at hp1
  rw [if_neg hd2, hla, hlo, ha2] at hp2
  simp only [Option.some_bind] at hp1 hp2
  have hr1 : routed E (deviceMemcOf defaultOptions)
      "idfa\t1rfw452y52g2gq4g\t55.55\t42.42\t1423,43,567,3,7,23".toList =
      some ("127.0.0.1:33013".toList, "idfa:1rfw452y52g2gq4g".toList, p1) := by
    unfold routed
    rw [parseAppsInstalled_TrimSpace, hp1, if_neg (by decide)]
    simp only [serialize, h1]
    rw [show mapLoad (deviceMemcOf defaultOptions) "idfa".toList = some "127.0.0.1:33013".toList
      from by decide]
    simp only [Option.some.injEq, Prod.mk.injEq, and_true, true_and]
    decide
  have hr2 : routed E (deviceMemcOf defaultOptions)
      "gaid\t7rfw452y52g2gq4g\t55.55\t42.42\t7423,424".toList =
      some ("127.0.0.1:33014".toList, "gaid:7rfw452y52g2gq4g".toList, p2) := by
    unfold routed
    rw [parseAppsInstalled_TrimSpace, hp2, if_neg (by decide)]
    simp only [serialize, h2]
    rw [show mapLoad (deviceMemcOf defaultOptions) "gaid".toList = some "127.0.0.1:33014".toList
      from by decide]
    simp only [Option.some.injEq, Prod.mk.injEq, and_true, true_and]
    decide
  rw [hs]
  simp only [List.filterMap_cons, hr1, hr2, List.filterMap_nil]

theorem sample_group (p1 p2 : Bytes) :
    putAll [("127.0.0.1:33013".toList, "idfa:1rfw452y52g2gq4g".toList, p1),
       ("127.0.0.1:33014".toList, "gaid:7rfw452y52g2gq4g".toList, p2)] [] =
      [("127.0.0.1:33013".toList, [("idfa:1rfw452y52g2gq4g".toList, p1)]),
       ("127.0.0.1:33014".toList, [("gaid:7rfw452y52g2gq4g".toList, p2)])] := by
  have hne : ¬ ("127.0.0.1:33013".toList = "127.0.0.1:33014".toList) := by decide
  simp only [putAll, List.foldl_cons, List.foldl_nil, put, mapLoad, mapStore, Option.getD_none,
    if_neg hne]

/-- C4: the shard group `threadings` builds is the reference one.  Its entry
for endpoint `e` and key `k` is the payload of the last line of the batch
whose reference entry (non-empty line, valid record, routed device-type, key
`<device-type>:<device-id>`) is for `e` and `k`, and there is an entry
exactly when there is such a line; endpoints and keys are distinct; the
calls of `insertAppsInstalled` are the entries of the group, one per
endpoint.  For the two sample lines and the default routing table these are
two calls, one key each.  The codec is taken to encode the batch's records. -/
theorem C4_shard_group_reference {F N : Type} (E : Extern F N) (lines : List Str)
    (m : List (Str × Str)) (opts : Options) (w : World N)
    (hM : ∀ l ∈ lines, ∀ r, parseAppsInstalled E l = some r →
      (E.Marshal r.Lat r.Lon r.Apps).isSome) :
    (∀ e k, lookup2 (groupLines E lines m w).1 e k
      = lastPayload (lines.filterMap (refEntry E m)) e k) ∧
    (∀ e k, (lookup2 (groupLines E lines m w).1 e k).isSome
      ↔ ∃ l ∈ lines, ∃ p, refEntry E m l = some (e, k, p)) ∧
    GroupOk (groupLines E lines m w).1 ∧
    (∃ calls, calls.Perm (groupLines E lines m w).1 ∧
      (threadings E lines m opts w).inserts = w.inserts ++ calls) ∧
    (∀ (lat lon : F) (p1 p2 : Bytes),
      E.ParseFloat "55.55".toList = some lat → E.ParseFloat "42.42".toList = some lon →
      E.Marshal lat lon [1423, 43, 567, 3, 7, 23] = some p1 →
      E.Marshal lat lon [7423, 424] = some p2 →
      ∃ calls,
        calls.Perm [("127.0.0.1:33013".toList, [("idfa:1rfw452y52g2gq4g".toList, p1)]),
                    ("127.0.0.1:33014".toList, [("gaid:7rfw452y52g2gq4g".toList, p2)])] ∧
        (threadings E sampleLines (deviceMemcOf defaultOptions) opts w).inserts
          = w.inserts ++ calls) := by
  have hG : (groupLines E lines m w).1 = putAll (lines.filterMap (refEntry E m)) [] := by
    unfold groupLines
    rw [foldl_lineStep_fst]
    congr 1
    apply List.filterMap_congr
    intro l hl
    exact routed_eq_refEntry E m l (hM l hl)
  have h1 : ∀ e k, lookup2 (groupLines E lines m w).1 e k
      = lastPayload (lines.filterMap (refEntry E m)) e k := by
    intro e k
    rw [hG, lookup2_putAll]
    cases lastPayload (lines.filterMap (refEntry E m)) e k <;> rfl
  have hcalls : ∀ (ls : List Str) (m2 : List (Str × Str)),
      (threadings E ls m2 opts w).inserts = w.inserts ++ E.range (groupLines E ls m2 w).1 := by
    intro ls m2
    rw [threadings_eq]
    obtain ⟨_, _, _, _, _, hi⟩ := foldl_writeStep E opts (E.range (groupLines E ls m2 w).1)
      { w with errors := incrN (rejectedLines E ls) w.errors }
    exact hi
  refine ⟨h1, ?_, ?_, ?_, ?_⟩
  · intro e k
    rw [h1, lastPayload_isSome]
    constructor
    · rintro ⟨p, hp⟩
      obtain ⟨l, hl, hl2⟩ := List.mem_filterMap.1 hp
      exact ⟨l, hl, p, hl2⟩
    · rintro ⟨l, hl, p, hl2⟩
      exact ⟨p, List.mem_filterMap.2 ⟨l, hl, hl2⟩⟩
  · rw [hG]; exact GroupOk_putAll _ _ GroupOk_nil
  · exact ⟨E.range (groupLines E lines m w).1, E.range_perm _, hcalls lines m⟩
  · intro lat lon p1 p2 hla hlo hm1 hm2
    refine ⟨E.range (groupLines E sampleLines (deviceMemcOf defaultOptions) w).1, ?_,
      hcalls _ _⟩
    have := E.range_perm (groupLines E sampleLines (deviceMemcOf defaultOptions) w).1
    unfold groupLines at this ⊢
    rw [foldl_lineStep_fst, sample_routed E lat lon p1 p2 hla hlo hm1 hm2, sample_group] at this ⊢
    exact this

/-- C4 at the two sample lines, the default routing table and a fresh
world: two calls, `idfa:1rfw452y52g2gq4g` to the idfa endpoint and
`gaid:7rfw452y52g2gq4g` to the gaid endpoint. -/
theorem C4_shard_group_reference_witness :
    ∃ calls,
      calls.Perm
        [("127.0.0.1:33013".toList, [("idfa:1rfw452y52g2gq4g".toList,
            "55.55".toList.map Char.toNat ++ 0 :: "42.42".toList.map Char.toNat ++
              0 :: [1423, 43, 567, 3, 7, 23])]),
         ("127.0.0.1:33014".toList, [("gaid:7rfw452y52g2gq4g".toList,
            "55.55".toList.map Char.toNat ++ 0 :: "42.42".toList.map Char.toNat ++
              0 :: [7423, 424])])] ∧
      (threadings (sampleExtern [] []) sampleLines (deviceMemcOf defaultOptions)
        defaultOptions world0).inserts = world0.inserts ++ calls :=
  (C4_shard_group_reference (sampleExtern [] []) sampleLines (deviceMemcOf defaultOptions)
    defaultOptions world0 (fun _ _ _ _ => rfl)).2.2.2.2
    "55.55".toList "42.42".toList _ _ (by decide) (by decide) rfl rfl

/-- C5: when every line of a batch that parses has a device-type absent from
the routing table, `threadings` makes no `insertAppsInstalled` call and no
`Set` call, leaves the processed counter alone, and raises the error counter
only for the lines the parser rejects; in any batch, a parsed line with an
unknown device-type can be removed without changing the outcome of
`threadings`; and records with the same device-type get the same endpoint. -/
theorem C5_unknown_device_type {F N : Type} (E : Extern F N) (m : List (Str × Str))
    (opts : Options) :
    (∀ (lines : List Str) (w : World N),
      (∀ l ∈ lines, ∀ r, parseAppsInstalled E l = some r → mapLoad m r.DevType = none) →
      (threadings E lines m opts w).inserts = w.inserts ∧
      (threadings E lines m opts w).sets = w.sets ∧
      (threadings E lines m opts w).processed = w.processed ∧
      (threadings E lines m opts w).errors = incrN (rejectedLines E lines) w.errors) ∧
    (∀ (pre post : List Str) (l : Str) (r : AppsInstalled F) (w : World N),
      parseAppsInstalled E l = some r → mapLoad m r.DevType = none →
      threadings E (pre ++ l :: post) m opts w = threadings E (pre ++ post) m opts w) ∧
    (∀ r1 r2 : AppsInstalled F, r1.DevType = r2.DevType →
      mapLoad m r1.DevType = mapLoad m r2.DevType) := by
  refine ⟨?_, ?_, ?_⟩
  · intro lines w h
    have hG : (groupLines E lines m w).1 = [] := by
      unfold groupLines
      rw [foldl_lineStep_fst]
      have : lines.filterMap (routed E m) = [] := by
        rw [List.filterMap_eq_nil_iff]
        intro l hl
        exact routed_none_of_refEntry E m l (h l hl)
      rw [this]; rfl
    have hr : E.range (groupLines E lines m w).1 = [] := by
      have := E.range_perm (groupLines E lines m w).1
      rw [hG] at this
      rw [hG]
      exact List.Perm.eq_nil this
    rw [threadings_eq, hr]
    exact ⟨rfl, rfl, rfl, rfl⟩
  · intro pre post l r w hp hm
    have hskip : ∀ acc : Devices × World N, lineStep E m acc l = acc := by
      intro acc
      apply lineStep_skip
      · apply routed_none_of_refEntry
        intro r2 hr2
        rw [hp] at hr2
        cases hr2
        exact hm
      · rw [isRejected_eq, hp]; simp
    unfold threadings groupLines
    simp only [List.foldl_append, List.foldl_cons, hskip]
  · intro r1 r2 h
    rw [h]

/-- C5 at a batch of one `xxxx` line (a device-type the default routing
table does not have) and one malformed line. -/
theorem C5_unknown_device_type_witness :
    (threadings (sampleExtern [] []) ["xxxx\tabc\t1.5\t2.5\t7".toList, "bad".toList]
      (deviceMemcOf defaultOptions) defaultOptions world0).inserts = world0.inserts ∧
    (threadings (sampleExtern [] []) ["xxxx\tabc\t1.5\t2.5\t7".toList, "bad".toList]
      (deviceMemcOf defaultOptions) defaultOptions world0).processed = world0.processed ∧
    threadings (sampleExtern [] []) (["idfa\tabc\t1.5\t2.5\t7".toList] ++
        "xxxx\tabc\t1.5\t2.5\t7".toList :: [])
      (deviceMemcOf defaultOptions) defaultOptions world0 =
    threadings (sampleExtern [] []) (["idfa\tabc\t1.5\t2.5\t7".toList] ++ [])
      (deviceMemcOf defaultOptions) defaultOptions world0 :=
  have h := C5_unknown_device_type (sampleExtern [] []) (deviceMemcOf defaultOptions)
    defaultOptions
  have h1 := h.1 ["xxxx\tabc\t1.5\t2.5\t7".toList, "bad".toList] world0 (by decide)
  ⟨h1.1, h1.2.2.1,
   h.2.1 ["idfa\tabc\t1.5\t2.5\t7".toList] [] "xxxx\tabc\t1.5\t2.5\t7".toList
     ⟨"xxxx".toList, "abc".toList, "1.5".toList, "2.5".toList, [7]⟩ world0
     (by decide) (by decide)⟩

/-- C6 as stated fails: a batch of one malformed line touches no endpoint,
yet `threadings` adds one to the error counter. -/
theorem C6_counterexample :
    ¬ (((threadings (sampleExtern [] []) ["bad".toList] (deviceMemcOf defaultOptions)
          defaultOptions world0).processed - world0.processed) +
       ((threadings (sampleExtern [] []) ["bad".toList] (deviceMemcOf defaultOptions)
          defaultOptions world0).errors - world0.errors)
      ≤ (endpointsTouched (sampleExtern [] []) (deviceMemcOf defaultOptions)
          ["bad".toList] : Int)) := by
  decide

/-- C6, amended: one `threadings` call makes one shard write per distinct
endpoint the batch touches, however many lines the batch holds; the
processed counter rises by the number of those writes that return true, and
the error counter rises by the number that return false plus the number of
non-empty lines the parser rejects (as `int32`, wrapping at `2^31`; plain
sums when no counter overflows). -/
theorem C6_counter_total {F N : Type} (E : Extern F N) (lines : List Str)
    (m : List (Str × Str)) (opts : Options) (w : World N)
    (hp : -2 ^ 31 ≤ w.processed ∧ w.processed < 2 ^ 31)
    (he : -2 ^ 31 ≤ w.errors ∧ w.errors < 2 ^ 31) :
    (shardOutcomes E lines m opts w).length = endpointsTouched E m lines ∧
    (shardOutcomes E lines m opts w).count true + (shardOutcomes E lines m opts w).count false
      = endpointsTouched E m lines ∧
    (threadings E lines m opts w).processed
      = (w.processed + ((shardOutcomes E lines m opts w).count true : Nat) + 2 ^ 31) % 2 ^ 32
        - 2 ^ 31 ∧
    (threadings E lines m opts w).errors
      = (w.errors + (((shardOutcomes E lines m opts w).count false
          + rejectedLines E lines : Nat)) + 2 ^ 31) % 2 ^ 32 - 2 ^ 31 ∧
    (w.processed + ((shardOutcomes E lines m opts w).count true : Nat) < 2 ^ 31 →
      (threadings E lines m opts w).processed
        = w.processed + ((shardOutcomes E lines m opts w).count true : Nat)) ∧
    (w.errors + (((shardOutcomes E lines m opts w).count false
        + rejectedLines E lines : Nat)) < 2 ^ 31 →
      (threadings E lines m opts w).errors
        = w.errors + (((shardOutcomes E lines m opts w).count false
            + rejectedLines E lines : Nat))) := by
  obtain ⟨h1, h2, h3⟩ := foldl_writeStep_outcomes E opts (E.range (groupLines E lines m w).1)
    { w with errors := incrN (rejectedLines E lines) w.errors } w ⟨rfl, rfl, rfl⟩
  have hlen : (shardOutcomes E lines m opts w).length = endpointsTouched E m lines := by
    unfold shardOutcomes
    rw [h3, (E.range_perm _).length_eq, groupLines_length]
  have hP : (threadings E lines m opts w).processed
      = (w.processed + ((shardOutcomes E lines m opts w).count true : Nat) + 2 ^ 31) % 2 ^ 32
        - 2 ^ 31 := by
    rw [threadings_eq, h1]
    exact incrN_formula _ _ hp.1 hp.2
  have hE : (threadings E lines m opts w).errors
      = (w.errors + (((shardOutcomes E lines m opts w).count false
          + rejectedLines E lines : Nat)) + 2 ^ 31) % 2 ^ 32 - 2 ^ 31 := by
    rw [threadings_eq, h2]
    simp only
    rw [incrN_add]
    exact incrN_formula _ _ he.1 he.2
  have e31 : (2 : Int) ^ 31 = 2147483648 := by norm_num
  have e32 : (2 : Int) ^ 32 = 4294967296 := by norm_num
  refine ⟨hlen, ?_, hP, hE, ?_, ?_⟩
  · rw [List.count_true_add_count_false, hlen]
  · intro hlt
    rw [hP]
    rw [e31] at hp hlt
    rw [e31, e32]
    omega
  · intro hlt
    rw [hE]
    rw [e31] at he hlt
    rw [e31, e32]
    omega

/-- C6, amended, at a batch of the two sample lines, an adid line and one
malformed line, on servers that refuse the adid key: three shard writes of
which two succeed, processed 2, errors 2. -/
theorem C6_counter_total_witness :
    (shardOutcomes (sampleExtern ["adid:zz".toList] [])
      (sampleLines ++ ["adid\tzz\t1.5\t2.5\t9".toList, "bad".toList])
      (deviceMemcOf defaultOptions) defaultOptions world0) = [true, true, false] ∧
    (threadings (sampleExtern ["adid:zz".toList] [])
      (sampleLines ++ ["adid\tzz\t1.5\t2.5\t9".toList, "bad".toList])
      (deviceMemcOf defaultOptions) defaultOptions world0).processed = 2 ∧
    (threadings (sampleExtern ["adid:zz".toList] [])
      (sampleLines ++ ["adid\tzz\t1.5\t2.5\t9".toList, "bad".toList])
      (deviceMemcOf defaultOptions) defaultOptions world0).errors = 2 :=
  have h := C6_counter_total (sampleExtern ["adid:zz".toList] [])
    (sampleLines ++ ["adid\tzz\t1.5\t2.5\t9".toList, "bad".toList])
    (deviceMemcOf defaultOptions) defaultOptions world0 (by decide) (by decide)
  ⟨by decide, h.2.2.1.trans (by decide), h.2.2.2.1.trans (by decide)⟩

/-- C8: in dry-run mode `insertAppsInstalled` makes no `Set` call, leaves
the servers untouched and returns true; and a `threadings` call in dry-run
mode makes no `Set` call, adds to the processed counter the number of
endpoints the batch touches, and adds to the error counter only the number
of lines the parser rejects (as `int32`, wrapping at `2^31`; plain sums when
no counter overflows). -/
theorem C8_dry_run {F N : Type} (E : Extern F N) :
    (∀ (memcAddr : Str) (values : List (Str × Bytes)) (w : World N),
      (insertAppsInstalled E memcAddr values true w).1 = true ∧
      (insertAppsInstalled E memcAddr values true w).2.sets = w.sets ∧
      (insertAppsInstalled E memcAddr values true w).2.net = w.net) ∧
    (∀ (lines : List Str) (m : List (Str × Str)) (opts : Options) (w : World N),
      opts.dry = true →
      -2 ^ 31 ≤ w.processed ∧ w.processed < 2 ^ 31 →
      -2 ^ 31 ≤ w.errors ∧ w.errors < 2 ^ 31 →
      (threadings E lines m opts w).sets = w.sets ∧
      (threadings E lines m opts w).net = w.net ∧
      shardOutcomes E lines m opts w = List.replicate (endpointsTouched E m lines) true ∧
      (threadings E lines m opts w).processed
        = (w.processed + (endpointsTouched E m lines : Nat) + 2 ^ 31) % 2 ^ 32 - 2 ^ 31 ∧
      (threadings E lines m opts w).errors
        = (w.errors + (rejectedLines E lines : Nat) + 2 ^ 31) % 2 ^ 32 - 2 ^ 31 ∧
      (w.processed + (endpointsTouched E m lines : Nat) < 2 ^ 31 →
        (threadings E lines m opts w).processed
          = w.processed + (endpointsTouched E m lines : Nat)) ∧
      (w.errors + (rejectedLines E lines : Nat) < 2 ^ 31 →
        (threadings E lines m opts w).errors = w.errors + (rejectedLines E lines : Nat))) := by
  refine ⟨fun a v w => insert_dry E a v w, ?_⟩
  intro lines m opts w hd hp he
  obtain ⟨h1, h2, h3, h4⟩ := foldl_writeStep_dry E opts hd
    (E.range (groupLines E lines m w).1)
    { w with errors := incrN (rejectedLines E lines) w.errors }
  have hlen : (E.range (groupLines E lines m w).1).length = endpointsTouched E m lines := by
    rw [(E.range_perm _).length_eq, groupLines_length]
  have hP : (threadings E lines m opts w).processed
      = (w.processed + (endpointsTouched E m lines : Nat) + 2 ^ 31) % 2 ^ 32 - 2 ^ 31 := by
    rw [threadings_eq, h1, hlen]
    exact incrN_formula _ _ hp.1 hp.2
  have hE : (threadings E lines m opts w).errors
      = (w.errors + (rejectedLines E lines : Nat) + 2 ^ 31) % 2 ^ 32 - 2 ^ 31 := by
    rw [threadings_eq, h2]
    exact incrN_formula _ _ he.1 he.2
  have hout : shardOutcomes E lines m opts w
      = List.replicate (endpointsTouched E m lines) true := by
    unfold shardOutcomes
    rw [hd, ← hlen]
    exact insertOutcomes_dry E _ w
  have e31 : (2 : Int) ^ 31 = 2147483648 := by norm_num
  have e32 : (2 : Int) ^ 32 = 4294967296 := by norm_num
  refine ⟨by rw [threadings_eq]; exact h3, by rw [threadings_eq]; exact h4, hout, hP, hE, ?_, ?_⟩
  · intro hlt
    rw [hP]
    rw [e31] at hp hlt
    rw [e31, e32]
    omega
  · intro hlt
    rw [hE]
    rw [e31] at he hlt
    rw [e31, e32]
    omega

/-- C8 at the two sample lines in dry-run mode, on servers that would refuse
both keys: no `Set` call, processed 2, errors 0. -/
theorem C8_dry_run_witness :
    (threadings (sampleExtern ["idfa:1rfw452y52g2gq4g".toList] ["gaid:7rfw452y52g2gq4g".toList])
      sampleLines (deviceMemcOf defaultOptions) { defaultOptions with dry := true }
      world0).sets = [] ∧
    (threadings (sampleExtern ["idfa:1rfw452y52g2gq4g".toList] ["gaid:7rfw452y52g2gq4g".toList])
      sampleLines (deviceMemcOf defaultOptions) { defaultOptions with dry := true }
      world0).processed = 2 ∧
    (threadings (sampleExtern ["idfa:1rfw452y52g2gq4g".toList] ["gaid:7rfw452y52g2gq4g".toList])
      sampleLines (deviceMemcOf defaultOptions) { defaultOptions with dry := true }
      world0).errors = 0 :=
  have h := (C8_dry_run
    (sampleExtern ["idfa:1rfw452y52g2gq4g".toList] ["gaid:7rfw452y52g2gq4g".toList])).2
    sampleLines (deviceMemcOf defaultOptions) { defaultOptions with dry := true } world0 rfl
    (by decide) (by decide)
  ⟨h.1, h.2.2.2.1.trans (by decide), h.2.2.2.2.1.trans (by decide)⟩

/-! ## Claims about `insertAppsInstalled` -/

theorem setLoop_spec {F N : Type} (E : Extern F N) (a : Str) (c : Client)
    (items : List (Str × Bytes)) (w : World N) :
    ((setLoop E a c items w).1 = true ∧
      (∀ x ∈ setTrace E c.addr items w.net, x.2.2.2 = SetResult.ok) ∧
      (setLoop E a c items w).2.sets = w.sets ++ setTrace E c.addr items w.net ∧
      (setLoop E a c items w).2.memcConnections = w.memcConnections) ∨
    ((setLoop E a c items w).1 = false ∧
      ∃ i x, (setTrace E c.addr items w.net)[i]? = some x ∧ x.2.2.2 ≠ SetResult.ok ∧
        (∀ j y, j < i → (setTrace E c.addr items w.net)[j]? = some y →
          y.2.2.2 = SetResult.ok) ∧
        (setLoop E a c items w).2.sets
          = w.sets ++ (setTrace E c.addr items w.net).take (i + 1) ∧
        (setLoop E a c items w).2.memcConnections
          = if x.2.2.2 = SetResult.serverError then mapDelete w.memcConnections a
            else w.memcConnections) := by
  induction items generalizing w with
  | nil =>
    left
    exact ⟨rfl, fun x hx => absurd hx (List.not_mem_nil _), by simp [setLoop, setTrace], rfl⟩
  | cons it rest ih =>
    obtain ⟨k, v⟩ := it
    cases hr : (E.Set w.net c.addr k v).2 with
    | ok =>
      have hstep : setLoop E a c ((k, v) :: rest) w = setLoop E a c rest
          { w with net := (E.Set w.net c.addr k v).1,
                   sets := w.sets ++ [(c.addr, k, v, (E.Set w.net c.addr k v).2)] } := by
        rw [setLoop]; simp only [hr]
      rw [hstep]
      simp only [setTrace]
      rcases ih { w with net := (E.Set w.net c.addr k v).1,
                         sets := w.sets ++ [(c.addr, k, v, (E.Set w.net c.addr k v).2)] }
        with ⟨h1, h2, h3, h4⟩ | ⟨h1, i, x, h2, h3, h4, h5, h6⟩
      · left
        refine ⟨h1, ?_, ?_, h4⟩
        · intro x hx
          rcases List.mem_cons.1 hx with hx | hx
          · rw [hx]; exact hr
          · exact h2 x hx
        · rw [h3]; simp only [List.append_assoc, List.singleton_append]
      · right
        refine ⟨h1, i + 1, x, ?_, h3, ?_, ?_, h6⟩
        · simpa using h2
        · intro j y hj hy
          cases j with
          | zero =>
            simp only [List.getElem?_cons_zero, Option.some.injEq] at hy
            rw [← hy]; exact hr
          | succ j =>
            simp only [List.getElem?_cons_succ] at hy
            exact h4 j y (by omega) hy
        · rw [h5]; simp only [List.append_assoc, List.singleton_append, List.take_succ_cons]
    | serverError =>
      right
      refine ⟨by rw [setLoop]; simp only [hr], 0, (c.addr, k, v, (E.Set w.net c.addr k v).2),
        by simp [setTrace], by rw [hr]; simp, fun j y hj => absurd hj (Nat.not_lt_zero _), ?_, ?_⟩
      · rw [setLoop]; simp only [hr, setTrace, List.take_succ_cons, List.take_zero]
      · rw [setLoop]; simp only [hr, if_true]
    | otherError =>
      right
      refine ⟨by rw [setLoop]; simp only [hr], 0, (c.addr, k, v, (E.Set w.net c.addr k v).2),
        by simp [setTrace], by rw [hr]; simp, fun j y hj => absurd hj (Nat.not_lt_zero _), ?_, ?_⟩
      · rw [setLoop]; simp only [hr, setTrace, List.take_succ_cons, List.take_zero]
      · rw [setLoop]; simp only [hr]; simp

theorem setLoop_claim {F N : Type} (E : Extern F N) (a : Str) (c : Client)
    (items : List (Str × Bytes)) (w w1 : World N) (hnet : w1.net = w.net)
    (hsets : w1.sets = w.sets) (hc : mapLoad w1.memcConnections a = some c)
    (hother : ∀ b, b ≠ a → mapLoad w1.memcConnections b = mapLoad w.memcConnections b) :
    ((setLoop E a c items w1).1 = true ↔
      ∀ x ∈ setTrace E c.addr items w.net, x.2.2.2 = SetResult.ok) ∧
    ((setLoop E a c items w1).1 = true →
      (setLoop E a c items w1).2.sets = w.sets ++ setTrace E c.addr items w.net ∧
      mapLoad (setLoop E a c items w1).2.memcConnections a = some c) ∧
    ((setLoop E a c items w1).1 = false →
      ∃ i x, (setTrace E c.addr items w.net)[i]? = some x ∧ x.2.2.2 ≠ SetResult.ok ∧
        (∀ j y, j < i → (setTrace E c.addr items w.net)[j]? = some y →
          y.2.2.2 = SetResult.ok) ∧
        (setLoop E a c items w1).2.sets
          = w.sets ++ (setTrace E c.addr items w.net).take (i + 1) ∧
        (mapLoad (setLoop E a c items w1).2.memcConnections a = none ↔
          x.2.2.2 = SetResult.serverError) ∧
        (x.2.2.2 ≠ SetResult.serverError →
          mapLoad (setLoop E a c items w1).2.memcConnections a = some c)) ∧
    (∀ b, b ≠ a →
      mapLoad (setLoop E a c items w1).2.memcConnections b = mapLoad w.memcConnections b) := by
  have hspec := setLoop_spec E a c items w1
  rw [hnet, hsets] at hspec
  rcases hspec with ⟨h1, h2, h3, h4⟩ | ⟨h1, i, x, h2, h3, h4, h5, h6⟩
  · refine ⟨⟨fun _ => h2, fun _ => h1⟩, fun _ => ⟨h3, by rw [h4]; exact hc⟩, ?_, ?_⟩
    · intro hf; rw [h1] at hf; cases hf
    · intro b hb; rw [h4]; exact hother b hb
  · refine ⟨⟨fun ht => ?_, fun hall => ?_⟩, fun ht => ?_, fun _ => ?_, ?_⟩
    · rw [h1] at ht; cases ht
    · exact absurd (hall x (List.getElem?_mem h2)) h3
    · rw [h1] at ht; cases ht
    · refine ⟨i, x, h2, h3, h4, h5, ?_, ?_⟩
      · rw [h6]
        by_cases hx : x.2.2.2 = SetResult.serverError
        · simp only [hx, if_true, mapLoad_mapDelete]
        · simp only [hx, if_false, hc, iff_false]
          exact fun h => Option.noConfusion h
      · intro hx
        rw [h6, if_neg hx]; exact hc
    · intro b hb
      rw [h6]
      by_cases hx : x.2.2.2 = SetResult.serverError
      · rw [if_pos hx, mapLoad_mapDelete, if_neg (Ne.symm hb)]; exact hother b hb
      · rw [if_neg hx]; exact hother b hb

theorem insert_eq_setLoop {F N : Type} (E : Extern F N) (a : Str)
    (values : List (Str × Bytes)) (w : World N) :
    ∃ w1 : World N, insertAppsInstalled E a values false w
        = setLoop E a (clientOf w a) (E.range values) w1 ∧
      w1.net = w.net ∧ w1.sets = w.sets ∧
      mapLoad w1.memcConnections a = some (clientOf w a) ∧
      ∀ b, b ≠ a → mapLoad w1.memcConnections b = mapLoad w.memcConnections b := by
  unfold insertAppsInstalled clientOf
  cases hl : mapLoad w.memcConnections a with
  | none =>
    refine ⟨{ w with memcConnections := mapStore w.memcConnections a ⟨a⟩ }, ?_, rfl, rfl, ?_, ?_⟩
    · simp
    · simp [mapLoad_mapStore]
    · intro b hb
      simp only [mapLoad_mapStore, if_neg (Ne.symm hb)]
  | some conn =>
    refine ⟨w, ?_, rfl, rfl, ?_, fun _ _ => rfl⟩
    · simp
    · simpa using hl

/-- C7: with dry-run off, `insertAppsInstalled` returns true exactly when
every `Set` call, made in the order `range` gives the items, succeeds, and
then every item was written and the registry keeps the client of the
endpoint.  When it returns false there is a first failing item: the `Set`
calls made are exactly those up to and including it (no later item is
attempted), the registry entry of the endpoint is gone exactly when the
failure is a server fault and is still the client otherwise.  The registry
entries of all other endpoints are as before. -/
theorem C7_shard_write_outcome {F N : Type} (E : Extern F N) (memcAddr : Str)
    (values : List (Str × Bytes)) (w : World N) :
    ((insertAppsInstalled E memcAddr values false w).1 = true ↔
      ∀ x ∈ setTrace E (clientOf w memcAddr).addr (E.range values) w.net,
        x.2.2.2 = SetResult.ok) ∧
    ((insertAppsInstalled E memcAddr values false w).1 = true →
      (insertAppsInstalled E memcAddr values false w).2.sets
        = w.sets ++ setTrace E (clientOf w memcAddr).addr (E.range values) w.net ∧
      mapLoad (insertAppsInstalled E memcAddr values false w).2.memcConnections memcAddr
        = some (clientOf w memcAddr)) ∧
    ((insertAppsInstalled E memcAddr values false w).1 = false →
      ∃ i x, (setTrace E (clientOf w memcAddr).addr (E.range values) w.net)[i]? = some x ∧
        x.2.2.2 ≠ SetResult.ok ∧
        (∀ j y, j < i →
          (setTrace E (clientOf w memcAddr).addr (E.range values) w.net)[j]? = some y →
          y.2.2.2 = SetResult.ok) ∧
        (insertAppsInstalled E memcAddr values false w).2.sets
          = w.sets ++ (setTrace E (clientOf w memcAddr).addr (E.range values) w.net).take (i + 1) ∧
        (mapLoad (insertAppsInstalled E memcAddr values false w).2.memcConnections memcAddr = none
          ↔ x.2.2.2 = SetResult.serverError) ∧
        (x.2.2.2 ≠ SetResult.serverError →
          mapLoad (insertAppsInstalled E memcAddr values false w).2.memcConnections memcAddr
            = some (clientOf w memcAddr))) ∧
    (∀ b, b ≠ memcAddr →
      mapLoad (insertAppsInstalled E memcAddr values false w).2.memcConnections b
        = mapLoad w.memcConnections b) := by
  obtain ⟨w1, heq, hnet, hsets, hc, hother⟩ := insert_eq_setLoop E memcAddr values w
  rw [heq]
  exact setLoop_claim E memcAddr (clientOf w memcAddr) (E.range values) w w1 hnet hsets hc hother

/-- C7 at three items of which the second meets a server fault: the call
returns false, makes two `Set` calls, and the endpoint leaves the registry
while another endpoint stays. -/
theorem C7_shard_write_outcome_witness :
    (insertAppsInstalled (sampleExtern ["k2".toList] []) "127.0.0.1:33013".toList
      [("k1".toList, [1]), ("k2".toList, [2]), ("k3".toList, [3])] false
      { world0 with memcConnections := [("127.0.0.1:33014".toList, ⟨"127.0.0.1:33014".toList⟩)] }).1
      = false ∧
    (insertAppsInstalled (sampleExtern ["k2".toList] []) "127.0.0.1:33013".toList
      [("k1".toList, [1]), ("k2".toList, [2]), ("k3".toList, [3])] false
      { world0 with memcConnections := [("127.0.0.1:33014".toList, ⟨"127.0.0.1:33014".toList⟩)] }).2.sets
      = [("127.0.0.1:33013".toList, "k1".toList, [1], SetResult.ok),
         ("127.0.0.1:33013".toList, "k2".toList, [2], SetResult.serverError)] ∧
    mapLoad (insertAppsInstalled (sampleExtern ["k2".toList] []) "127.0.0.1:33013".toList
      [("k1".toList, [1]), ("k2".toList, [2]), ("k3".toList, [3])] false
      { world0 with memcConnections := [("127.0.0.1:33014".toList, ⟨"127.0.0.1:33014".toList⟩)] }).2.memcConnections
      "127.0.0.1:33014".toList = some ⟨"127.0.0.1:33014".toList⟩ :=
  ⟨by decide, by decide,
   (C7_shard_write_outcome (sampleExtern ["k2".toList] []) "127.0.0.1:33013".toList
      [("k1".toList, [1]), ("k2".toList, [2]), ("k3".toList, [3])]
      { world0 with memcConnections := [("127.0.0.1:33014".toList, ⟨"127.0.0.1:33014".toList⟩)] }).2.2.2
      "127.0.0.1:33014".toList (by decide)⟩

/-! ## Claims about `processFile` -/

theorem scanLoop_spec (cap : Nat) (hcap : 0 < cap) (lines batch : List Str)
    (sent : List (List Str)) (hb : batch.length < cap) (hs : ∀ b ∈ sent, b.length = cap) :
    (scanLoop cap lines batch sent).2.flatten ++ (scanLoop cap lines batch sent).1
      = sent.flatten ++ batch ++ lines ∧
    (scanLoop cap lines batch sent).1.length < cap ∧
    ∀ b ∈ (scanLoop cap lines batch sent).2, b.length = cap := by
  induction lines generalizing batch sent with
  | nil => exact ⟨by simp [scanLoop], hb, hs⟩
  | cons l ls ih =>
    unfold scanLoop
    simp only
    by_cases h : (batch ++ [l]).length = cap
    · rw [if_pos h]
      have hs2 : ∀ b ∈ sent ++ [batch ++ [l]], b.length = cap := by
        intro b hb2
        rcases List.mem_append.1 hb2 with h1 | h1
        · exact hs b h1
        · simp only [List.mem_singleton] at h1; rw [h1]; exact h
      obtain ⟨h1, h2, h3⟩ := ih [] (sent ++ [batch ++ [l]]) hcap hs2
      refine ⟨?_, h2, h3⟩
      rw [h1]; simp
    · rw [if_neg h]
      have hb2 : (batch ++ [l]).length < cap := by
        simp only [List.length_append, List.length_singleton] at h ⊢
        omega
      obtain ⟨h1, h2, h3⟩ := ih (batch ++ [l]) sent hb2 hs
      refine ⟨?_, h2, h3⟩
      rw [h1]; simp

/-- C10: when the scanner ends without error, the batches `processFile`
hands to `threadings`, concatenated in order, are the lines read; every
batch is non-empty and has at most 40000 lines; every batch but the last has
exactly 40000. -/
theorem C10_batches_partition_lines (lines : List Str) :
    (processFile lines false).fatal = false ∧
    (processFile lines false).batches.flatten = lines ∧
    (∀ b ∈ (processFile lines false).batches, b ≠ [] ∧ b.length ≤ 40000) ∧
    (∀ b ∈ (processFile lines false).batches.dropLast, b.length = 40000) := by
  obtain ⟨h1, h2, h3⟩ := scanLoop_spec BATCH (by decide) lines [] []
    (by decide) (fun b hb => absurd hb (List.not_mem_nil _))
  have hB : BATCH = 40000 := rfl
  rw [hB] at h1 h2 h3
  unfold processFile
  rw [hB]
  simp only [Bool.false_eq_true, if_false]
  simp only [List.flatten_nil, List.append_nil, List.nil_append] at h1
  by_cases hlen : (scanLoop 40000 lines [] []).1.length > 0
  · rw [if_pos hlen]
    refine ⟨rfl, ?_, ?_, ?_⟩
    · rw [List.flatten_concat]; exact h1
    · intro b hb
      rcases List.mem_append.1 hb with h | h
      · have := h3 b h
        exact ⟨(by intro hn; rw [hn] at this; cases this), by omega⟩
      · simp only [List.mem_singleton] at h
        subst h
        exact ⟨(by intro hn; rw [hn] at hlen; cases hlen), by omega⟩
    · intro b hb
      rw [List.dropLast_concat] at hb
      exact h3 b hb
  · rw [if_neg hlen]
    have hnil : (scanLoop 40000 lines [] []).1 = [] := by
      cases hx : (scanLoop 40000 lines [] []).1 with
      | nil => rfl
      | cons a t => rw [hx] at hlen; simp at hlen
    refine ⟨rfl, ?_, ?_, ?_⟩
    · rw [hnil, List.append_nil] at h1; exact h1
    · intro b hb
      have := h3 b hb
      exact ⟨(by intro hn; rw [hn] at this; cases this), by omega⟩
    · intro b hb
      exact h3 b (List.dropLast_subset _ hb)

/-! ## The error rate -/

theorem round64_pos (x : ℚ) (hx : 0 < x) :
    ∃ n1 : Int, round64 x = n1 * (2 : ℚ) ^ (Int.log 2 x - 52) ∧
      ⌊x / (2 : ℚ) ^ (Int.log 2 x - 52)⌋ ≤ n1 ∧
      n1 ≤ ⌊x / (2 : ℚ) ^ (Int.log 2 x - 52)⌋ + 1 ∧
      (x / (2 : ℚ) ^ (Int.log 2 x - 52) = ⌊x / (2 : ℚ) ^ (Int.log 2 x - 52)⌋ →
        n1 = ⌊x / (2 : ℚ) ^ (Int.log 2 x - 52)⌋) := by
  unfold round64
  rw [if_neg (ne_of_gt hx), abs_of_pos hx]
  simp only [if_neg (not_lt.2 (le_of_lt hx))]
  refine ⟨_, rfl, ?_, ?_, ?_⟩
  · split_ifs <;> omega
  · split_ifs <;> omega
  · intro h
    rw [if_pos]
    rw [← h]; norm_num

theorem quantum_bounds (x : ℚ) (hx : 0 < x) :
    (0 : ℚ) < (2 : ℚ) ^ (Int.log 2 x - 52) ∧
    (2 : ℚ) ^ (52 : ℕ) * (2 : ℚ) ^ (Int.log 2 x - 52) ≤ x ∧
    x < (2 : ℚ) ^ (53 : ℕ) * (2 : ℚ) ^ (Int.log 2 x - 52) := by
  have h2 : (2 : ℚ) ≠ 0 := by norm_num
  have hlo := Int.zpow_log_le_self (b := 2) (by norm_num) hx
  have hhi := Int.lt_zpow_succ_log_self (b := 2) (by norm_num) x
  simp only [Nat.cast_ofNat] at hlo hhi
  refine ⟨zpow_pos (by norm_num) _, ?_, ?_⟩
  · rw [← zpow_natCast, ← zpow_add₀ h2]
    have : ((52 : ℕ) : ℤ) + (Int.log 2 x - 52) = Int.log 2 x := by push_cast; ring
    rw [this]; exact hlo
  · rw [← zpow_natCast, ← zpow_add₀ h2]
    have : ((53 : ℕ) : ℤ) + (Int.log 2 x - 52) = Int.log 2 x + 1 := by push_cast; ring
    rw [this]; exact hhi

theorem round64_le_pred (x : ℚ) (hx : 0 < x) (h : x ≤ ((C01 - 1 : ℤ) : ℚ) * (2 : ℚ) ^ (-59 : ℤ)) :
    round64 x ≤ ((C01 - 1 : ℤ) : ℚ) * (2 : ℚ) ^ (-59 : ℤ) := by
  obtain ⟨n1, hr, hn1, hn2, hn3⟩ := round64_pos x hx
  obtain ⟨hq, hlo, hhi⟩ := quantum_bounds x hx
  have hlog : Int.log 2 x < -6 := by
    rw [← Int.lt_zpow_iff_log_lt (by norm_num) hx]
    refine lt_of_le_of_lt h ?_
    norm_num [C01]
  rw [hr]
  by_cases he : Int.log 2 x = -7
  · have h59 : (-7 : ℤ) - 52 = -59 := by norm_num
    rw [he, h59] at hn1 hn2 hn3 ⊢
    have hq' : (0 : ℚ) < (2 : ℚ) ^ (-59 : ℤ) := zpow_pos (by norm_num) _
    have hxq : x / (2 : ℚ) ^ (-59 : ℤ) ≤ ((C01 - 1 : ℤ) : ℚ) := by
      rw [div_le_iff₀ hq']; exact h
    have hfl : ⌊x / (2 : ℚ) ^ (-59 : ℤ)⌋ ≤ C01 - 1 := by
      have := Int.floor_mono hxq
      rwa [Int.floor_intCast] at this
    have hn : n1 ≤ C01 - 1 := by
      by_cases heq : ⌊x / (2 : ℚ) ^ (-59 : ℤ)⌋ = C01 - 1
      · have h1 : x / (2 : ℚ) ^ (-59 : ℤ) = ⌊x / (2 : ℚ) ^ (-59 : ℤ)⌋ := by
          apply le_antisymm
          · rw [heq]; exact hxq
          · exact Int.floor_le _
        rw [hn3 h1, heq]
      · omega
    exact mul_le_mul_of_nonneg_right (by exact_mod_cast hn) (le_of_lt hq')
  · have he2 : Int.log 2 x + 1 ≤ -7 := by omega
    have hfl : ⌊x / (2 : ℚ) ^ (Int.log 2 x - 52)⌋ < 2 ^ 53 := by
      rw [Int.floor_lt, div_lt_iff₀ hq]
      exact_mod_cast hhi
    have hn : (n1 : ℚ) ≤ 2 ^ (53 : ℕ) := by
      have : n1 ≤ 2 ^ 53 := by omega
      exact_mod_cast this
    calc (n1 : ℚ) * (2 : ℚ) ^ (Int.log 2 x - 52)
        ≤ 2 ^ (53 : ℕ) * (2 : ℚ) ^ (Int.log 2 x - 52) :=
          mul_le_mul_of_nonneg_right hn (le_of_lt hq)
      _ = (2 : ℚ) ^ (Int.log 2 x + 1) := by
          rw [← zpow_natCast, ← zpow_add₀ (by norm_num)]
          congr 1; push_cast; ring
      _ ≤ (2 : ℚ) ^ (-7 : ℤ) := zpow_le_zpow_right₀ (by norm_num) he2
      _ ≤ ((C01 - 1 : ℤ) : ℚ) * (2 : ℚ) ^ (-59 : ℤ) := by norm_num [C01]

theorem round64_ge (x : ℚ) (hx : 0 < x) (h : (C01 : ℚ) * (2 : ℚ) ^ (-59 : ℤ) ≤ x) :
    (C01 : ℚ) * (2 : ℚ) ^ (-59 : ℤ) ≤ round64 x := by
  obtain ⟨n1, hr, hn1, hn2, hn3⟩ := round64_pos x hx
  obtain ⟨hq, hlo, hhi⟩ := quantum_bounds x hx
  have hlog : -7 ≤ Int.log 2 x := by
    rw [← Int.zpow_le_iff_le_log (by norm_num) hx]
    refine le_trans ?_ h
    norm_num [C01]
  rw [hr]
  by_cases he : Int.log 2 x = -7
  · have h59 : (-7 : ℤ) - 52 = -59 := by norm_num
    rw [he, h59] at hn1 hn2 hn3 ⊢
    have hq' : (0 : ℚ) < (2 : ℚ) ^ (-59 : ℤ) := zpow_pos (by norm_num) _
    have hxq : (C01 : ℚ) ≤ x / (2 : ℚ) ^ (-59 : ℤ) := by
      rw [le_div_iff₀ hq']; exact h
    have hfl : C01 ≤ ⌊x / (2 : ℚ) ^ (-59 : ℤ)⌋ := Int.le_floor.2 hxq
    have hn : C01 ≤ n1 := le_trans hfl hn1
    exact mul_le_mul_of_nonneg_right (by exact_mod_cast hn) (le_of_lt hq')
  · have he2 : -6 ≤ Int.log 2 x := by omega
    have hfl : 2 ^ 52 ≤ ⌊x / (2 : ℚ) ^ (Int.log 2 x - 52)⌋ := by
      rw [Int.le_floor, le_div_iff₀ hq]
      exact_mod_cast hlo
    have hn : (2 : ℚ) ^ (52 : ℕ) ≤ (n1 : ℚ) := by
      have : 2 ^ 52 ≤ n1 := by omega
      exact_mod_cast this
    calc (C01 : ℚ) * (2 : ℚ) ^ (-59 : ℤ) ≤ (2 : ℚ) ^ (-6 : ℤ) := by norm_num [C01]
      _ ≤ (2 : ℚ) ^ (Int.log 2 x) := zpow_le_zpow_right₀ (by norm_num) he2
      _ = 2 ^ (52 : ℕ) * (2 : ℚ) ^ (Int.log 2 x - 52) := by
          rw [← zpow_natCast, ← zpow_add₀ (by norm_num)]
          congr 1; push_cast; ring
      _ ≤ (n1 : ℚ) * (2 : ℚ) ^ (Int.log 2 x - 52) :=
          mul_le_mul_of_nonneg_right hn (le_of_lt hq)

theorem round64_hundredth : round64 (1 / 100) = (C01 : ℚ) * (2 : ℚ) ^ (-59 : ℤ) := by
  have hx : (0 : ℚ) < 1 / 100 := by norm_num
  have hlog : Int.log 2 ((1 : ℚ) / 100) = -7 := by
    apply le_antisymm
    · have : Int.log 2 ((1 : ℚ) / 100) < -6 := by
        rw [← Int.lt_zpow_iff_log_lt (by norm_num) hx]; norm_num
      omega
    · rw [← Int.zpow_le_iff_le_log (by norm_num) hx]; norm_num
  unfold round64
  rw [if_neg (ne_of_gt hx), abs_of_pos hx, hlog]
  have hfl : ⌊(1 : ℚ) / 100 / (2 : ℚ) ^ ((-7 : ℤ) - 52)⌋ = C01 - 1 := by
    rw [Int.floor_eq_iff]; norm_num [C01]
  simp only [hfl]
  norm_num [C01]


theorem round64_lt_iff (e p : Int) (he0 : 0 ≤ e) (hp0 : 0 < p) (hp1 : p < 2 ^ 31) :
    round64 ((e : ℚ) / p) < round64 (1 / 100) ↔ (e : ℚ) / p < 1 / 100 := by
  have hpq : (0 : ℚ) < p := by exact_mod_cast hp0
  have hp1q : (p : ℚ) < 2147483648 := by exact_mod_cast hp1
  have he0q : (0 : ℚ) ≤ e := by exact_mod_cast he0
  rcases eq_or_lt_of_le he0 with he | he
  · rw [← he]
    simp only [Int.cast_zero, zero_div]
    have : round64 0 = 0 := by unfold round64; rw [if_pos rfl]
    rw [this, round64_hundredth]
    constructor
    · intro _; norm_num
    · intro _; norm_num [C01]
  · have heq : (0 : ℚ) < e := by exact_mod_cast he
    have hx : (0 : ℚ) < (e : ℚ) / p := div_pos heq hpq
    constructor
    · intro hlt
      by_contra hge
      rw [not_lt] at hge
      rcases eq_or_lt_of_le hge with h1 | h1
      · rw [← h1] at hlt; exact lt_irrefl _ hlt
      · have hi : p < 100 * e := by
          rw [lt_div_iff₀ hpq] at h1
          have : (p : ℚ) < 100 * e := by linarith
          exact_mod_cast this
        have hi2 : (p : ℚ) + 1 ≤ 100 * e := by
          have : p + 1 ≤ 100 * e := by omega
          exact_mod_cast this
        have hc : (C01 : ℚ) * (2 : ℚ) ^ (-59 : ℤ) ≤ (e : ℚ) / p := by
          rw [le_div_iff₀ hpq]
          norm_num [C01]
          linarith
        have := round64_ge _ hx hc
        rw [round64_hundredth] at hlt
        exact absurd hlt (not_lt.2 this)
    · intro hlt
      have hi : 100 * e < p := by
        rw [div_lt_iff₀ hpq] at hlt
        have : 100 * (e : ℚ) < p := by linarith
        exact_mod_cast this
      have hi2 : 100 * (e : ℚ) + 1 ≤ p := by
        have : 100 * e + 1 ≤ p := by omega
        exact_mod_cast this
      have hc : (e : ℚ) / p ≤ ((C01 - 1 : ℤ) : ℚ) * (2 : ℚ) ^ (-59 : ℤ) := by
        rw [div_le_iff₀ hpq]
        norm_num [C01]
        linarith
      have := round64_le_pred _ hx hc
      rw [round64_hundredth]
      refine lt_of_le_of_lt this ?_
      norm_num [C01]

theorem printErrorState_iff (errors processed : Int) (he0 : 0 ≤ errors)
    (hp0 : 0 ≤ processed) (hp1 : processed < 2 ^ 31) :
    printErrorState errors processed = Verdict.acceptable ↔
      processed ≠ 0 ∧ (errors : ℚ) / processed < 1 / 100 := by
  unfold printErrorState ofInt32 NORMAL_ERR_RATE
  rcases eq_or_lt_of_le hp0 with hp | hp
  · rw [← hp]
    simp only [Int.cast_zero, f64div, if_true, ne_eq, not_true, false_and, iff_false]
    by_cases he : (errors : ℚ) = 0
    · simp [he, f64lt]
    · have : ¬ (errors : ℚ) < 0 := by
        rw [not_lt]; exact_mod_cast he0
      simp [he, f64lt, this]
  · have hpq : (processed : ℚ) ≠ 0 := by
      have : processed ≠ 0 := ne_of_gt hp
      exact_mod_cast this
    simp only [f64div, if_neg hpq, f64lt]
    rw [← round64_lt_iff errors processed he0 hp hp1]
    have hne : processed ≠ 0 := ne_of_gt hp
    by_cases hlt : round64 ((errors : ℚ) / processed) < round64 (1 / 100)
    · simp [hlt, hne]
    · simp [hlt, hne]

/-- C9: for an error count and a processed count (non-negative `int32`),
`printErrorState` reports an acceptable rate exactly when the quotient
errors / processed exists and is below 0.01 (a quotient by zero is not below
the threshold), and reports a high error rate otherwise; 100 processed with
0 errors is acceptable, 100 processed with 2 errors is a high error rate. -/
theorem C9_error_rate_verdict (errors processed : Int) (he0 : 0 ≤ errors)
    (he1 : errors < 2 ^ 31) (hp0 : 0 ≤ processed) (hp1 : processed < 2 ^ 31) :
    (printErrorState errors processed = Verdict.acceptable ↔
      processed ≠ 0 ∧ (errors : ℚ) / processed < 1 / 100) ∧
    (printErrorState errors processed ≠ Verdict.acceptable →
      printErrorState errors processed = Verdict.highErrorRate) ∧
    printErrorState 0 100 = Verdict.acceptable ∧
    printErrorState 2 100 = Verdict.highErrorRate := by
  have _ := he1
  refine ⟨printErrorState_iff errors processed he0 hp0 hp1, ?_, ?_, ?_⟩
  · intro h
    cases hv : printErrorState errors processed with
    | acceptable => exact absurd hv h
    | highErrorRate => rfl
  · rw [printErrorState_iff 0 100 (by norm_num) (by norm_num) (by norm_num)]
    norm_num
  · cases hv : printErrorState 2 100 with
    | acceptable =>
      rw [printErrorState_iff 2 100 (by norm_num) (by norm_num) (by norm_num)] at hv
      norm_num at hv
    | highErrorRate => rfl

/-- C9 at 1 error in 101 processed (acceptable) and at 1 error in 100
processed (not acceptable: the rate is not below 0.01). -/
theorem C9_error_rate_verdict_witness :
    printErrorState 1 101 = Verdict.acceptable ∧
    printErrorState 1 100 = Verdict.highErrorRate :=
  ⟨(C9_error_rate_verdict 1 101 (by norm_num) (by norm_num) (by norm_num) (by norm_num)).1.2
      (by norm_num),
   (C9_error_rate_verdict 1 100 (by norm_num) (by norm_num) (by norm_num) (by norm_num)).2.1
      (fun h => absurd
        ((C9_error_rate_verdict 1 100 (by norm_num) (by norm_num) (by norm_num)
          (by norm_num)).1.1 h).2 (by norm_num))⟩

end MemcLoad
